import Mathlib

/-!
Verification development for the dependency-graph construction and sequence
synthesis engine of the fuzz-target generator (`api_graph.rs`).

The engine's own code (`ApiGraph`: `find_all_dependencies`, `is_fun_satisfied`,
`check_dependency`, `bfs`, `_try_deep_bfs`, `random_walk`, `real_world`,
`reverse_construct`) is embedded shallowly below.  External collaborators
(that is, the type-compatibility oracle, the signature extraction front end,
the start/end convention table) are kept abstract as an `Oracle` record, and
helper types that live in modules outside the engine's file
(`ApiSequence`, `ApiCall`, `CallType`, `FuzzableType`, `api_util`) are
modelled from the specification, as indicated by their doc comments.
-/

/-- Opaque structural type description (`TypeRef`/`clean::Type`).  All semantic
questions about types are answered by the external oracle, never by the core,
so an opaque identifier suffices. -/
abbrev RustType := Nat

/-- Opaque generic-substitution map attached to a function
(`generic_substitutions`); the core only hands it to the oracle. -/
abbrev Subst := Nat

/-- Modelled from the spec: `AccessMode` is one of ownership-transfer,
by-value copy, shared-access, exclusive-access, or incompatible.  This models
the `CallType` enumeration produced by the oracle for a
(producer return type, consumer parameter type) pair. -/
inductive AccessMode
  | moveT
  | copyT
  | sharedT
  | exclT
  | incompat
deriving DecidableEq, Repr, Inhabited

/-- Modelled from the spec: encoding class of a fuzzable parameter — a
fixed-size scalar with a known minimum byte size, a variable-length value, or
`noFuzz` for a randomizable-but-unencodable shape (`FuzzableType::NoFuzzable`). -/
inductive FuzzableType
  | noFuzz
  | fixedSize (n : Nat)
  | varLen
deriving DecidableEq, Repr, Inhabited

/-- Modelled from the spec: how one call parameter is filled — by a fuzzable
slot (`ParamType::_FuzzableType`) or by an earlier call's result
(`ParamType::_FunctionReturn`). -/
inductive ParamType
  | fuzzType
  | funcReturn
deriving DecidableEq, Repr

instance : Inhabited ParamType := ⟨ParamType.fuzzType⟩

/-- The function-kind distinction (`ApiType`): plain bare function, or the
currently unsupported generic function. -/
inductive ApiType
  | bareFunction
  | genericFunction
deriving DecidableEq, Repr, Inhabited

/-- Modelled from the spec: one invocation inside a sequence (`ApiCall`):
which function, and for each declared parameter either a fuzzable-slot index
or an earlier call's index, together with the access mode used. -/
structure ApiCall where
  func : ApiType × Nat
  params : List (ParamType × Nat × AccessMode)
deriving DecidableEq, Repr

instance : Inhabited ApiCall := ⟨⟨(ApiType.bareFunction, 0), []⟩⟩

/-- `ApiCall::_new`: a call of the given bare function with no parameters yet. -/
def ApiCall.mk_new (idx : Nat) : ApiCall :=
  ⟨(ApiType.bareFunction, idx), []⟩

/-- `ApiCall::_add_param`. -/
def ApiCall.add_param (c : ApiCall) (pt : ParamType) (idx : Nat) (ct : AccessMode) : ApiCall :=
  { c with params := c.params ++ [(pt, idx, ct)] }

/-- Modelled from the spec: a `Sequence` (`ApiSequence`) — the ordered list of
calls, the fuzzable-parameter descriptors, the covered edge ids, the per-call
moved state, mut-tag bookkeeping, the unsafe flag (`uns_tag`) and the trait
names used. -/
structure ApiSequence where
  functions : List ApiCall
  fuzzable_params : List FuzzableType
  covered_deps : List Nat
  moved_set : List Nat
  fuzz_mut_tags : List Nat
  fn_mut_tags : List Nat
  uns_tag : Bool
  traits : List String
deriving DecidableEq, Repr

instance : Inhabited ApiSequence := ⟨⟨[], [], [], [], [], [], false, []⟩⟩

/-- `ApiSequence::new`: the empty sequence. -/
def ApiSequence.mk_new : ApiSequence := ⟨[], [], [], [], [], [], false, []⟩

/-- `ApiSequence::len`. -/
def ApiSequence.len (s : ApiSequence) : Nat := s.functions.length

/-- `ApiSequence::_add_fn`: append one call. -/
def ApiSequence.add_fn (s : ApiSequence) (c : ApiCall) : ApiSequence :=
  { s with functions := s.functions ++ [c] }

/-- `ApiSequence::_add_dependency`: record a covered edge id. -/
def ApiSequence.add_dependency (s : ApiSequence) (d : Nat) : ApiSequence :=
  { s with covered_deps := d :: s.covered_deps }

/-- `ApiSequence::_insert_move_index`: mark a call's result as moved. -/
def ApiSequence.ins_move (s : ApiSequence) (i : Nat) : ApiSequence :=
  { s with moved_set := i :: s.moved_set }

/-- `ApiSequence::_insert_fuzzable_mut_tag`. -/
def ApiSequence.ins_fuzz_mut (s : ApiSequence) (i : Nat) : ApiSequence :=
  { s with fuzz_mut_tags := i :: s.fuzz_mut_tags }

/-- `ApiSequence::_insert_function_mut_tag`. -/
def ApiSequence.ins_fn_mut (s : ApiSequence) (i : Nat) : ApiSequence :=
  { s with fn_mut_tags := i :: s.fn_mut_tags }

/-- `ApiSequence::set_unsafe`: mark the sequence as containing unsafe code. -/
def ApiSequence.set_uns (s : ApiSequence) : ApiSequence :=
  { s with uns_tag := true }

/-- `ApiSequence::add_trait`. -/
def ApiSequence.add_trait (s : ApiSequence) (t : String) : ApiSequence :=
  { s with traits := t :: s.traits }

/-- Modelled from the spec: `_contains_multi_dynamic_length_fuzzable` — the
sequence holds more than one variable-length fuzzable parameter. -/
def ApiSequence.multi_dyn (s : ApiSequence) : Prop :=
  1 < s.fuzzable_params.countP (fun ft => ft == FuzzableType.varLen)

instance (s : ApiSequence) : Decidable s.multi_dyn :=
  inferInstanceAs (Decidable (_ < _))

/-- Modelled from the spec: `_get_contained_api_functions` — the distinct
function indices appearing in the sequence. -/
def ApiSequence.contained_fns (s : ApiSequence) : List Nat :=
  (s.functions.map (fun c => c.func.snd)).dedup

/-- `ApiFunction`: identity, ordered parameter types, optional return type,
substitution map, unsafe marker (`uns_fn` models `_unsafe_tag`), and optional
originating trait. -/
structure ApiFunction where
  full_name : String
  inputs : List RustType
  output : Option RustType
  gsub : Subst
  uns_fn : Bool
  trait_path : Option String
deriving DecidableEq, Repr

instance : Inhabited ApiFunction := ⟨⟨"", [], none, 0, false, none⟩⟩

/-- `ApiDependency`: (producer, consumer, consumer parameter index, call type). -/
structure ApiDependency where
  output_fun : ApiType × Nat
  input_fun : ApiType × Nat
  input_param_index : Nat
  call_type : AccessMode
deriving DecidableEq, Repr

instance : Inhabited ApiDependency :=
  ⟨⟨(ApiType.bareFunction, 0), (ApiType.bareFunction, 0), 0, AccessMode.incompat⟩⟩

/-- The external type-compatibility oracle and convention tables
(`api_util::_same_type`, `api_util::substitute_type`,
`api_util::is_fuzzable_type`, `fuzz_type::fuzzable_call_type`,
`_need_mut_tag`, `unsafe_call_type`, `_is_start_function`, `_is_end_function`).
All are out-of-scope collaborators, kept abstract. -/
structure Oracle where
  same_type : RustType → RustType → AccessMode
  substitute_type : RustType → Subst → Option RustType
  is_fuzzable_type : RustType → Option Subst → Bool
  fuzzable_call_type : RustType → Option Subst → FuzzableType × AccessMode
  need_mut : AccessMode → Bool
  call_uns : AccessMode → Bool
  is_end_fn : ApiFunction → Bool
  is_start_fn : ApiFunction → Bool

/-- Modelled from the spec: `api_util::_move_condition` — ownership-transfer
consumes the producer's value.  The type argument mirrors the source
signature; under the spec's access modes the mode alone decides. -/
def move_condition (_ty : RustType) (ct : AccessMode) : Prop :=
  ct = AccessMode.moveT

/-- Modelled from the spec: `api_util::_is_mutable_borrow_occurs` —
exclusive-access borrows the producer's value mutably. -/
def mut_borrow_occurs (_ty : RustType) (ct : AccessMode) : Prop :=
  ct = AccessMode.exclT

/-- Modelled from the spec: `api_util::_is_immutable_borrow_occurs` —
shared-access borrows the producer's value immutably. -/
def imm_borrow_occurs (_ty : RustType) (ct : AccessMode) : Prop :=
  ct = AccessMode.sharedT

instance (ty : RustType) (ct : AccessMode) : Decidable (move_condition ty ct) :=
  inferInstanceAs (Decidable (ct = _))

instance (ty : RustType) (ct : AccessMode) : Decidable (mut_borrow_occurs ty ct) :=
  inferInstanceAs (Decidable (ct = _))

instance (ty : RustType) (ct : AccessMode) : Decidable (imm_borrow_occurs ty ct) :=
  inferInstanceAs (Decidable (ct = _))

/-- The graph state (`ApiGraph`): catalog, visited flags, edge set, and the
pool of generated sequences. -/
structure ApiGraph where
  crate_name : String
  api_functions : List ApiFunction
  api_functions_visited : List Bool
  api_dependencies : List ApiDependency
  api_sequences : List ApiSequence
deriving DecidableEq, Repr

instance : Inhabited ApiGraph := ⟨⟨"", [], [], [], []⟩⟩

/-! ## `check_dependency`

`ApiGraph::check_dependency` scans the recorded dependencies in order; for
each candidate it rebuilds the query with the candidate's own `call_type`
copied in, and compares for full equality — so the comparison constrains only
the (producer, consumer, parameter) triple, never the access mode. -/

/-- One comparison step of `check_dependency`: the temporary value
`tmp_dependency` copies `call_type` from the candidate before comparing. -/
def dep_matches (d : ApiDependency) (ot : ApiType) (oi : Nat) (it : ApiType)
    (ii : Nat) (k : Nat) : Prop :=
  d = ⟨(ot, oi), (it, ii), k, d.call_type⟩

instance (d : ApiDependency) (ot : ApiType) (oi : Nat) (it : ApiType) (ii : Nat)
    (k : Nat) : Decidable (dep_matches d ot oi it ii k) :=
  inferInstanceAs (Decidable (d = _))

/-- The index scan of `check_dependency`, with the running index made
explicit. -/
def check_dep_from (ot : ApiType) (oi : Nat) (it : ApiType) (ii : Nat) (k : Nat) :
    Nat → List ApiDependency → Option Nat
  | _, [] => none
  | base, d :: rest =>
      if dep_matches d ot oi it ii k then some base
      else check_dep_from ot oi it ii k (base + 1) rest

/-- `ApiGraph::check_dependency` over the recorded edge list. -/
def check_dependency (deps : List ApiDependency) (ot : ApiType) (oi : Nat)
    (it : ApiType) (ii : Nat) (k : Nat) : Option Nat :=
  check_dep_from ot oi it ii k 0 deps

/-! ## `find_all_dependencies`

For every ordered pair (producer `i`, consumer `j`) with producer not an end
function and owning a return type, consumer not a start function, and every
parameter index `k` of the consumer: substitute both sides' generics, ask the
oracle for the access mode, and record an edge unless the mode is
incompatible.  Substitution failure skips just that parameter. -/

def find_all_dependencies (o : Oracle) (funcs : List ApiFunction) :
    List ApiDependency :=
  (List.range funcs.length).bind fun i =>
    let first_fun := funcs.getD i default
    if o.is_end_fn first_fun then []
    else
      match first_fun.output with
      | none => []
      | some output_type =>
        (List.range funcs.length).bind fun j =>
          let second_fun := funcs.getD j default
          if o.is_start_fn second_fun then []
          else
            (List.range second_fun.inputs.length).bind fun k =>
              match o.substitute_type output_type first_fun.gsub with
              | none => []
              | some ot =>
                match o.substitute_type (second_fun.inputs.getD k default)
                    second_fun.gsub with
                | none => []
                | some it =>
                  match o.same_type ot it with
                  | AccessMode.incompat => []
                  | ct =>
                      [⟨(ApiType.bareFunction, i), (ApiType.bareFunction, j), k, ct⟩]

/-- The graph-level operation: `self.api_dependencies` is cleared and refilled. -/
def ApiGraph.find_all_deps (g : ApiGraph) (o : Oracle) : ApiGraph :=
  { g with api_dependencies := find_all_dependencies o g.api_functions }

/-! ## `is_fun_satisfied` (the admission algorithm)

The working state of one admission: the sequence being built, the call being
assembled, and the three local bookkeeping sets `_moved_indexes`,
`_multi_mut`, `_immutable_borrow`. -/

structure AdmSt where
  seq : ApiSequence
  call : ApiCall
  mvd : List Nat
  mmut : List Nat
  immb : List Nat
deriving Repr

/-- Result of examining one earlier call while resolving a non-fuzzable
parameter: either move on to the next call (`cont`, possibly with the covered
edge already recorded) or accept this producer (`found`). -/
inductive DepStep
  | cont (st : AdmSt)
  | found (st : AdmSt)

/-- The `_moved_indexes.insert(function_index)` arm of the move check. -/
def tda_move (ty : RustType) (ct : AccessMode) (f : Nat) (st : AdmSt) : AdmSt :=
  if move_condition ty ct then { st with mvd := f :: st.mvd } else st

/-- The `_multi_mut.insert(function_index)` arm of the mutable-borrow check. -/
def tda_mut (ty : RustType) (ct : AccessMode) (f : Nat) (st : AdmSt) : AdmSt :=
  if mut_borrow_occurs ty ct then { st with mmut := f :: st.mmut } else st

/-- The `_immutable_borrow.insert(function_index)` arm of the
immutable-borrow check. -/
def tda_imm (ty : RustType) (ct : AccessMode) (f : Nat) (st : AdmSt) : AdmSt :=
  if imm_borrow_occurs ty ct then { st with immb := f :: st.immb } else st

/-- The `_need_mut_tag` update on the accepted dependency. -/
def tda_tag (o : Oracle) (ct : AccessMode) (f : Nat) (st : AdmSt) : AdmSt :=
  if o.need_mut ct then { st with seq := st.seq.ins_fn_mut f } else st

/-- The `unsafe_call_type` update on the accepted dependency. -/
def tda_uns (o : Oracle) (ct : AccessMode) (st : AdmSt) : AdmSt :=
  if o.call_uns ct then { st with seq := st.seq.set_uns } else st

/-- One iteration of the producer scan inside `is_fun_satisfied`: skip calls
whose result is already moved, look the dependency up, record the covered
edge, then run the move / mutable-borrow / immutable-borrow admissibility
checks exactly in source order. -/
def try_dep_at (funcs : List ApiFunction) (deps : List ApiDependency)
    (o : Oracle) (in_idx : Nat) (i : Nat) (ty : RustType) (st : AdmSt)
    (f : Nat) : DepStep :=
  if f ∈ st.seq.moved_set ∨ f ∈ st.mvd then DepStep.cont st
  else
    let found_function := st.seq.functions.getD f default
    match check_dependency deps found_function.func.fst found_function.func.snd
        ApiType.bareFunction in_idx i with
    | none => DepStep.cont st
    | some dep_idx =>
      let dep := deps.getD dep_idx default
      let st1 : AdmSt := { st with seq := st.seq.add_dependency dep_idx }
      if move_condition ty dep.call_type ∧ (f ∈ st1.mmut ∨ f ∈ st1.immb) then
        DepStep.cont st1
      else
        let st2 : AdmSt := tda_move ty dep.call_type f st1
        if mut_borrow_occurs ty dep.call_type ∧ (f ∈ st2.mmut ∨ f ∈ st2.immb) then
          DepStep.cont st2
        else
          let st3 : AdmSt := tda_mut ty dep.call_type f st2
          if imm_borrow_occurs ty dep.call_type ∧ f ∈ st3.mmut then
            DepStep.cont st3
          else
            let st4 : AdmSt := tda_imm ty dep.call_type f st3
            let st5 : AdmSt := tda_tag o dep.call_type f st4
            let st6 : AdmSt := tda_uns o dep.call_type st5
            DepStep.found
              { st6 with call := st6.call.add_param ParamType.funcReturn f dep.call_type }

/-- The full producer scan (`for function_index in 0..functions_in_sequence_len`),
returning the state after the first accepted producer, or `none` when the scan
exhausts without acceptance (`dependency_flag` stays false). -/
def find_dep (funcs : List ApiFunction) (deps : List ApiDependency) (o : Oracle)
    (in_idx : Nat) (i : Nat) (ty : RustType) : AdmSt → List Nat → Option AdmSt
  | _, [] => none
  | st, f :: rest =>
      match try_dep_at funcs deps o in_idx i ty st f with
      | DepStep.cont st2 => find_dep funcs deps o in_idx i ty st2 rest
      | DepStep.found st2 => some st2

/-- The `_need_mut_tag` update for a freshly allocated fuzzable slot. -/
def pp_fuzz_tag (o : Oracle) (ct : AccessMode) (idx : Nat) (st : AdmSt) : AdmSt :=
  if o.need_mut ct then { st with seq := st.seq.ins_fuzz_mut idx } else st

/-- Pushing the fuzzable descriptor and the fuzzable-slot parameter. -/
def pp_fuzz_add (ft : FuzzableType) (ct : AccessMode) (idx : Nat) (st : AdmSt) : AdmSt :=
  { st with
    seq := { st.seq with fuzzable_params := st.seq.fuzzable_params ++ [ft] },
    call := st.call.add_param ParamType.fuzzType idx ct }

/-- The per-parameter loop of `is_fun_satisfied`: fuzzable parameters get a
new slot (failing the whole admission on an unencodable shape), other
parameters search the existing calls for a dependency. -/
def process_params (funcs : List ApiFunction) (deps : List ApiDependency)
    (o : Oracle) (fn : ApiFunction) (in_idx : Nat) (seq_len : Nat) :
    List (Nat × RustType) → AdmSt → Option AdmSt
  | [], st => some st
  | (i, ty) :: rest, st =>
      if o.is_fuzzable_type ty (some fn.gsub) then
        let current_fuzzable_index := st.seq.fuzzable_params.length
        let ftct := o.fuzzable_call_type ty (some fn.gsub)
        match ftct.fst with
        | FuzzableType.noFuzz => none
        | _ =>
          let st2 : AdmSt :=
            pp_fuzz_add ftct.fst ftct.snd current_fuzzable_index
              (pp_fuzz_tag o ftct.snd current_fuzzable_index st)
          process_params funcs deps o fn in_idx seq_len rest st2
      else
        match find_dep funcs deps o in_idx i ty st (List.range seq_len) with
        | none => none
        | some st2 => process_params funcs deps o fn in_idx seq_len rest st2

/-- The unsafe-flag and trait bookkeeping `is_fun_satisfied` performs on its
cloned sequence before resolving parameters. -/
def ifs_wrap (fn : ApiFunction) (s : ApiSequence) : ApiSequence :=
  let s := if fn.uns_fn then s.set_uns else s
  match fn.trait_path with
  | some tp => s.add_trait tp
  | none => s

/-- `ApiGraph::is_fun_satisfied`: decide whether one more call of function
`in_idx` can be appended to `sequence`; on success return the extended
sequence. -/
def is_fun_satisfied (funcs : List ApiFunction) (deps : List ApiDependency)
    (o : Oracle) (t : ApiType) (in_idx : Nat) (sequence : ApiSequence) :
    Option ApiSequence :=
  match t with
  | ApiType.genericFunction => none
  | ApiType.bareFunction =>
    let input_function := funcs.getD in_idx default
    let new_sequence := ifs_wrap input_function sequence
    let api_call := ApiCall.mk_new in_idx
    if input_function.inputs.isEmpty then
      some (new_sequence.add_fn api_call)
    else
      match process_params funcs deps o input_function in_idx
          sequence.functions.length input_function.inputs.enum
          ⟨new_sequence, api_call, [], [], []⟩ with
      | none => none
      | some st =>
        let s := st.seq.add_fn st.call
        let s := st.mvd.foldl (fun acc m => acc.ins_move m) s
        if s.multi_dyn then none else some s

/-- Graph-level wrapper, reading the catalog and edge set from the graph. -/
def ApiGraph.is_fun_sat (g : ApiGraph) (o : Oracle) (t : ApiType) (in_idx : Nat)
    (sequence : ApiSequence) : Option ApiSequence :=
  is_fun_satisfied g.api_functions g.api_dependencies o t in_idx sequence

/-! ## `reverse_construct` (backward search)

`ReverseApiSequence` and its merge live outside the engine file; they are
modelled from the spec ("merge every parameter's resolved sub-sequence by
structural concatenation ... and append T's call last"). -/

/-- Modelled from the spec: `ReverseApiSequence` — the backward-built
sequence skeleton. -/
structure ReverseApiSequence where
  functions : List ApiCall
  fuzzable_params : List FuzzableType
  covered_deps : List Nat
  fuzz_mut_tags : List Nat
  fn_mut_tags : List Nat
  uns_tag : Bool
deriving DecidableEq, Repr

instance : Inhabited ReverseApiSequence := ⟨⟨[], [], [], [], [], false⟩⟩

/-- `ReverseApiSequence::new`. -/
def ReverseApiSequence.mk_new : ReverseApiSequence := ⟨[], [], [], [], [], false⟩

/-- Modelled from the spec: `ReverseApiSequence::combine` — structural
concatenation of two backward-built skeletons. -/
def ReverseApiSequence.combine (a b : ReverseApiSequence) : ReverseApiSequence :=
  ⟨a.functions ++ b.functions, a.fuzzable_params ++ b.fuzzable_params,
   a.covered_deps ++ b.covered_deps, a.fuzz_mut_tags ++ b.fuzz_mut_tags,
   a.fn_mut_tags ++ b.fn_mut_tags, a.uns_tag || b.uns_tag⟩

def ReverseApiSequence.add_dependency (s : ReverseApiSequence) (d : Nat) :
    ReverseApiSequence :=
  { s with covered_deps := d :: s.covered_deps }

def ReverseApiSequence.ins_fuzz_mut (s : ReverseApiSequence) (i : Nat) :
    ReverseApiSequence :=
  { s with fuzz_mut_tags := i :: s.fuzz_mut_tags }

def ReverseApiSequence.ins_fn_mut (s : ReverseApiSequence) (i : Nat) :
    ReverseApiSequence :=
  { s with fn_mut_tags := i :: s.fn_mut_tags }

def ReverseApiSequence.set_uns (s : ReverseApiSequence) : ReverseApiSequence :=
  { s with uns_tag := true }

/-- The working state of one `reverse_construct` activation: the skeleton,
the call being assembled for the target, the collected per-parameter
sub-sequences (`param_reverse_sequences`), and `current_param_index`. -/
structure RCSt where
  rseq : ReverseApiSequence
  call : ApiCall
  psubs : List ReverseApiSequence
  cpi : Nat
deriving Repr

/-- The producer scan of `reverse_construct`
(`for output_fun_index in 0..n`): the loop BREAKS as soon as
`output_fun_index == input_fun_index` — so only producers with index strictly
below the target are ever examined; there is no "currently resolving" set.
The recursive call is abstracted as `rc`. -/
def rc_producers (funcs : List ApiFunction) (deps : List ApiDependency)
    (o : Oracle) (rc : Nat → Option ReverseApiSequence) (tail_idx i : Nat)
    (st : RCSt) : List Nat → Option RCSt
  | [] => none
  | f :: rest =>
      if f = tail_idx then none
      else
        match check_dependency deps ApiType.bareFunction f ApiType.bareFunction
            tail_idx i with
        | none => rc_producers funcs deps o rc tail_idx i st rest
        | some dep_idx =>
          match rc f with
          | none => rc_producers funcs deps o rc tail_idx i st rest
          | some param_seq =>
            let dep := deps.getD dep_idx default
            let st1 : RCSt :=
              { st with psubs := st.psubs ++ [param_seq],
                        rseq := st.rseq.add_dependency dep_idx }
            let st2 : RCSt :=
              if o.need_mut dep.call_type then
                { st1 with rseq := st1.rseq.ins_fn_mut st1.cpi }
              else st1
            let st3 : RCSt :=
              if o.call_uns dep.call_type then { st2 with rseq := st2.rseq.set_uns }
              else st2
            some { st3 with
                    call := st3.call.add_param ParamType.funcReturn st3.cpi dep.call_type,
                    cpi := st3.cpi + param_seq.functions.length }

/-- The per-parameter loop of `reverse_construct` (substitutions are passed
as `None` here, exactly as in the source). -/
def rc_params (funcs : List ApiFunction) (deps : List ApiDependency) (o : Oracle)
    (rc : Nat → Option ReverseApiSequence) (tail_idx : Nat) :
    List (Nat × RustType) → RCSt → Option RCSt
  | [], st => some st
  | (i, ty) :: rest, st =>
      if o.is_fuzzable_type ty none then
        let current_fuzzable_index := st.rseq.fuzzable_params.length
        let ftct := o.fuzzable_call_type ty none
        match ftct.fst with
        | FuzzableType.noFuzz => none
        | _ =>
          let st1 : RCSt :=
            if o.need_mut ftct.snd then
              { st with rseq := st.rseq.ins_fuzz_mut current_fuzzable_index }
            else st
          let st2 : RCSt :=
            { st1 with
              rseq := { st1.rseq with
                        fuzzable_params := st1.rseq.fuzzable_params ++ [ftct.fst] },
              call := st1.call.add_param ParamType.fuzzType current_fuzzable_index ftct.snd }
          rc_params funcs deps o rc tail_idx rest st2
      else
        match rc_producers funcs deps o rc tail_idx i st
            (List.range funcs.length) with
        | none => none
        | some st2 => rc_params funcs deps o rc tail_idx rest st2

/-- `ApiGraph::reverse_construct`, with an explicit recursion-depth budget
`fuel` standing for the call stack.  `reverse_construct_depth_free` below
proves that any budget above the target index gives the same answer, i.e.
the recursion never needs more than `tail_idx + 1` nested activations. -/
def reverse_construct (funcs : List ApiFunction) (deps : List ApiDependency)
    (o : Oracle) : Nat → ApiType → Nat → Option ReverseApiSequence
  | 0, _, _ => none
  | Nat.succ fuel, t, tail_idx =>
      match t with
      | ApiType.genericFunction => none
      | ApiType.bareFunction =>
        let api_call := ApiCall.mk_new tail_idx
        let input_fun := funcs.getD tail_idx default
        match rc_params funcs deps o
            (fun f => reverse_construct funcs deps o fuel ApiType.bareFunction f)
            tail_idx input_fun.inputs.enum
            ⟨ReverseApiSequence.mk_new, api_call, [], 1⟩ with
        | none => none
        | some st =>
          let r := { st.rseq with functions := st.rseq.functions ++ [st.call] }
          some (st.psubs.foldl (fun acc s => acc.combine s) r)

/-- Entry point: depth budget `tail_idx + 1` is always sufficient
(see `reverse_construct_depth_free`). -/
def reverse_construct_run (g : ApiGraph) (o : Oracle) (t : ApiType)
    (tail_idx : Nat) : Option ReverseApiSequence :=
  reverse_construct g.api_functions g.api_dependencies o (tail_idx + 1) t tail_idx

/-! ## Search strategies -/

/-- `RANDOM_WALK_STEPS` (static per-library tuning table). -/
def random_walk_steps (crate : String) : Option Nat :=
  if crate = "regex" then some 10000
  else if crate = "url" then some 10000
  else if crate = "time" then some 10000
  else none

/-- `CAN_COVER_NODES` (static per-library coverage-target table). -/
def can_cover_nodes (crate : String) : Option Nat :=
  if crate = "regex" then some 96
  else if crate = "serde_json" then some 41
  else if crate = "clap" then some 66
  else none

/-- `ApiGraph::reset_visited`: clear and refill the visited flags with
`false`. -/
def ApiGraph.reset_visited (g : ApiGraph) : ApiGraph :=
  { g with api_functions_visited := List.replicate g.api_functions.length false }

/-- `ApiGraph::check_all_visited`: with a per-library target the visited count
must equal the target, otherwise every function must be visited. -/
def ApiGraph.check_all_visited (g : ApiGraph) : Bool :=
  let visited_nodes := g.api_functions_visited.countP (fun b => b)
  match can_cover_nodes g.crate_name with
  | some to_cover_nodes => visited_nodes == to_cover_nodes
  | none => visited_nodes == g.api_functions_visited.length

/-- `ApiGraph::_visited_nodes_num`. -/
def ApiGraph.visited_nodes_num (g : ApiGraph) : Nat :=
  g.api_functions_visited.countP (fun b => b)

/-- `ApiGraph::is_sequence_ended`: the last call's function is an end
function.  (The generic-function arm is `todo!()` in the source and cannot be
reached because admission never emits generic calls.) -/
def ApiGraph.is_sequence_ended (g : ApiGraph) (o : Oracle) (s : ApiSequence) : Bool :=
  match s.functions.getLast? with
  | none => false
  | some api_call =>
      match api_call.func.fst with
      | ApiType.bareFunction =>
          o.is_end_fn (g.api_functions.getD api_call.func.snd default)
      | ApiType.genericFunction => false

/-- One admission attempt inside `bfs`: fast mode skips functions already
visited; a success appends the new sequence and marks the function visited.
The source also computes `check_all_visited` here, but its early `return` is
commented out, so the check has no effect on the state. -/
def bfs_step (o : Oracle) (fast_mode : Bool) (sequence : ApiSequence)
    (g : ApiGraph) (fi : Nat) : ApiGraph :=
  if fast_mode && g.api_functions_visited.getD fi false then g
  else
    match g.is_fun_sat o ApiType.bareFunction fi sequence with
    | some new_sequence =>
        { g with api_sequences := g.api_sequences ++ [new_sequence],
                 api_functions_visited := g.api_functions_visited.set fi true }
    | none => g

/-- `ApiGraph::bfs`.  Note the sequence pool is NOT cleared (the
`api_sequences.clear()` line is commented out in the source); only the
visited flags are reset and one fresh empty sequence is pushed. -/
def ApiGraph.bfs (g : ApiGraph) (o : Oracle) (max_len : Nat)
    (stop_at_end_function fast_mode : Bool) : ApiGraph :=
  let g := g.reset_visited
  if max_len < 1 then g
  else
    let api_function_num := g.api_functions.length
    let g := { g with api_sequences := g.api_sequences ++ [ApiSequence.mk_new] }
    (List.range max_len).foldl
      (fun g len =>
        let tmp_sequences := g.api_sequences.filter
          (fun s => !(stop_at_end_function && g.is_sequence_ended o s) && s.len == len)
        tmp_sequences.foldl
          (fun g sequence =>
            (List.range api_function_num).foldl (bfs_step o fast_mode sequence) g)
          g)
      g

/-- Modelled from the spec: the bounded BFS as the specification describes it,
where fast mode "additionally stops as soon as full target coverage is
reached".  Kept only to compare against the source's `bfs`. -/
def ApiGraph.bfs_spec (g : ApiGraph) (o : Oracle) (max_len : Nat)
    (stop_at_end_function fast_mode : Bool) : ApiGraph :=
  let g := g.reset_visited
  if max_len < 1 then g
  else
    let api_function_num := g.api_functions.length
    let g := { g with api_sequences := g.api_sequences ++ [ApiSequence.mk_new] }
    let res := (List.range max_len).foldl
      (fun (acc : ApiGraph × Bool) len =>
        if acc.snd then acc
        else
          let tmp_sequences := acc.fst.api_sequences.filter
            (fun s =>
              !(stop_at_end_function && acc.fst.is_sequence_ended o s) && s.len == len)
          tmp_sequences.foldl
            (fun acc sequence =>
              (List.range api_function_num).foldl
                (fun (acc : ApiGraph × Bool) fi =>
                  if acc.snd then acc
                  else if fast_mode && acc.fst.api_functions_visited.getD fi false then acc
                  else
                    match acc.fst.is_fun_sat o ApiType.bareFunction fi sequence with
                    | some ns =>
                        let g2 := { acc.fst with
                          api_sequences := acc.fst.api_sequences ++ [ns],
                          api_functions_visited := acc.fst.api_functions_visited.set fi true }
                        (g2, fast_mode && g2.check_all_visited)
                    | none => acc)
                acc)
            acc)
      (g, false)
    res.fst

/-- One admission attempt inside `_try_deep_bfs`, threading the coverage
accounting (`already_covered_nodes`, `already_covered_edges`,
`has_new_coverage_flag`). -/
def tdb_step (o : Oracle) (sequence : ApiSequence)
    (acc : ApiGraph × List Nat × List Nat × Bool) (fi : Nat) :
    ApiGraph × List Nat × List Nat × Bool :=
  let (g, nodes, edges, flag) := acc
  match g.is_fun_sat o ApiType.bareFunction fi sequence with
  | some new_sequence =>
      let covered_nodes := new_sequence.contained_fns
      let (nodes, flag) := covered_nodes.foldl
        (fun (p : List Nat × Bool) c =>
          if c ∈ p.fst then p else (c :: p.fst, true)) (nodes, flag)
      let (edges, flag) := new_sequence.covered_deps.foldl
        (fun (p : List Nat × Bool) e =>
          if e ∈ p.fst then p else (e :: p.fst, true)) (edges, flag)
      ({ g with api_sequences := g.api_sequences ++ [new_sequence],
                api_functions_visited := g.api_functions_visited.set fi true },
       nodes, edges, flag)
  | none => acc

/-- The round loop of `_try_deep_bfs`: stop on the pool-size ceiling
(`len > 2 && sequences * covered >= max_sequence_number`) or when a full
round adds no new coverage. -/
def tdb_loop (o : Oracle) (max_sequence_number api_function_num : Nat) :
    Nat → Nat → ApiGraph → List Nat → List Nat → ApiGraph
  | 0, _, g, _, _ => g
  | Nat.succ rem, len, g, nodes, edges =>
      let current_sequence_number := g.api_sequences.length
      let covered_nodes := g.visited_nodes_num
      if len > 2 ∧ current_sequence_number * covered_nodes ≥ max_sequence_number then g
      else
        let tmp_sequences := g.api_sequences.filter
          (fun s => !(g.is_sequence_ended o s) && s.len == len)
        let res := tmp_sequences.foldl
          (fun acc sequence =>
            (List.range api_function_num).foldl (tdb_step o sequence) acc)
          (g, nodes, edges, false)
        if !res.snd.snd.snd then res.fst
        else tdb_loop o max_sequence_number api_function_num rem (len + 1)
               res.fst res.snd.fst res.snd.snd.fst

/-- `ApiGraph::_try_deep_bfs`: clears the whole pool, resets the visited
flags, pushes a fresh empty sequence, then runs rounds up to the catalog
size. -/
def ApiGraph.try_deep_bfs (g : ApiGraph) (o : Oracle)
    (max_sequence_number : Nat) : ApiGraph :=
  let g := { g with api_sequences := [] }
  let g := g.reset_visited
  let max_len := g.api_functions.length
  if max_len < 1 then g
  else
    let g := { g with api_sequences := g.api_sequences ++ [ApiSequence.mk_new] }
    tdb_loop o max_sequence_number g.api_functions.length max_len 0 g [] []

/-- The step loop of `random_walk`.  The pseudorandom source is modelled as
an explicit stream of draws (`rands`), one draw per `gen_range` call
(`gen_range(0, k)` is `draw % k`); a skipped iteration consumes only its
first draw, exactly like the source. -/
def rw_loop (o : Oracle) (function_len : Nat) (stop_at_end_function : Bool)
    (max_depth : Nat) : Nat → List Nat → ApiGraph → ApiGraph
  | 0, _, g => g
  | Nat.succ it, rands, g =>
      let current_sequence_len := g.api_sequences.length
      let chosen_sequence_index := rands.headD 0 % current_sequence_len
      let rands := rands.tail
      let chosen_sequence := g.api_sequences.getD chosen_sequence_index default
      if stop_at_end_function && g.is_sequence_ended o chosen_sequence then
        rw_loop o function_len stop_at_end_function max_depth it rands g
      else if max_depth > 0 && chosen_sequence.len ≥ max_depth then
        rw_loop o function_len stop_at_end_function max_depth it rands g
      else
        let chosen_fun_index := rands.headD 0 % function_len
        let rands := rands.tail
        match g.is_fun_sat o ApiType.bareFunction chosen_fun_index chosen_sequence with
        | some new_sequence =>
            rw_loop o function_len stop_at_end_function max_depth it rands
              { g with api_sequences := g.api_sequences ++ [new_sequence],
                       api_functions_visited :=
                         g.api_functions_visited.set chosen_fun_index true }
        | none => rw_loop o function_len stop_at_end_function max_depth it rands g

/-- `ApiGraph::random_walk`: clears the whole pool, resets the visited
flags, pushes a fresh empty sequence, then takes `max_size` randomized
steps. -/
def ApiGraph.random_walk (g : ApiGraph) (o : Oracle) (rands : List Nat)
    (max_size : Nat) (stop_at_end_function : Bool) (max_depth : Nat) : ApiGraph :=
  let g := { g with api_sequences := [] }
  let g := g.reset_visited
  if g.api_functions.length ≤ 0 then g
  else
    let g := { g with api_sequences := g.api_sequences ++ [ApiSequence.mk_new] }
    rw_loop o g.api_functions.length stop_at_end_function max_depth max_size rands g

/-! ## `real_world` (seed replay)

File reading and line parsing are external (the spec's seed-replay entry
point receives "an externally parsed list of named call chains"), so the
replay core takes the chains as data. -/

/-- The per-chain pre-filter of `real_world`: a chain is discarded in its
entirety when any of its function names is absent from the filtered catalog
(`functions.iter().any(|x| ... find ... is_none())`). -/
def chain_ok (funcs : List ApiFunction) (chain : List String) : Bool :=
  !(chain.any (fun x => (funcs.find? (fun api => api.full_name == x)).isNone))

/-- Replay of one chain, call by call, threading the graph: each admitted
call marks the function visited and pushes the extended sequence; the first
inadmissible (or unfound) call discards the remainder of the chain. -/
def replay_into (o : Oracle) : ApiGraph → List String → ApiSequence → ApiGraph
  | g, [], _ => g
  | g, func_path :: rest, sequence =>
      match g.api_functions.enum.find? (fun p => p.snd.full_name == func_path) with
      | some fi =>
          match g.is_fun_sat o ApiType.bareFunction fi.fst sequence with
          | some new_sequence =>
              replay_into o
                { g with
                  api_functions_visited := g.api_functions_visited.set fi.fst true,
                  api_sequences := g.api_sequences ++ [new_sequence] }
                rest new_sequence
          | none => g
      | none => g

/-- The pure per-chain contribution to the pool: the successively admitted
prefix sequences, cut at the first inadmissible call. -/
def replay_chain (funcs : List ApiFunction) (deps : List ApiDependency)
    (o : Oracle) : List String → ApiSequence → List ApiSequence
  | [], _ => []
  | func_path :: rest, sequence =>
      match funcs.enum.find? (fun p => p.snd.full_name == func_path) with
      | some fi =>
          match is_fun_satisfied funcs deps o ApiType.bareFunction fi.fst sequence with
          | some new_sequence => new_sequence :: replay_chain funcs deps o rest new_sequence
          | none => []
      | none => []

/-- The replay core of `ApiGraph::real_world` ("Category 1"): drop chains
with unknown names, clear the pool, reset the visited flags, then replay
every surviving chain through the admission algorithm. -/
def ApiGraph.real_world_core (g : ApiGraph) (o : Oracle)
    (chains : List (List String)) : ApiGraph :=
  let sequences := chains.filter (fun c => chain_ok g.api_functions c)
  let g := { g with api_sequences := [] }
  let g := g.reset_visited
  sequences.foldl (fun gacc c => replay_into o gacc c ApiSequence.mk_new) g

/-- Everything a `cont` outcome of the producer scan preserves. -/
def ContFrame (st st2 : AdmSt) : Prop :=
  st2.call = st.call ∧ st2.mvd = st.mvd ∧ st2.mmut = st.mmut ∧ st2.immb = st.immb ∧
  st2.seq.functions = st.seq.functions ∧ st2.seq.moved_set = st.seq.moved_set ∧
  st2.seq.fuzzable_params = st.seq.fuzzable_params


/-- Everything a `found` outcome establishes: the accepted producer `f`, its
mode `ct`, the bookkeeping updates, and the admissibility guards that were
checked against the state at acceptance time. -/
def FoundFacts (f : Nat) (st st2 : AdmSt) : Prop :=
  ∃ ct,
    st2.call = st.call.add_param ParamType.funcReturn f ct ∧
    st2.seq.functions = st.seq.functions ∧
    st2.seq.moved_set = st.seq.moved_set ∧
    st2.seq.fuzzable_params = st.seq.fuzzable_params ∧
    st2.mvd = (if ct = AccessMode.moveT then f :: st.mvd else st.mvd) ∧
    st2.mmut = (if ct = AccessMode.exclT then f :: st.mmut else st.mmut) ∧
    st2.immb = (if ct = AccessMode.sharedT then f :: st.immb else st.immb) ∧
    f ∉ st.seq.moved_set ∧ f ∉ st.mvd ∧
    (ct = AccessMode.moveT → f ∉ st.mmut ∧ f ∉ st.immb) ∧
    (ct = AccessMode.exclT → f ∉ st.mmut ∧ f ∉ st.immb) ∧
    (ct = AccessMode.sharedT → f ∉ st.mmut)


/-- Every function-return parameter already assembled is recorded in the
matching bookkeeping set. -/
def Marked (st : AdmSt) : Prop :=
  ∀ f ct, (ParamType.funcReturn, f, ct) ∈ st.call.params →
    (ct = AccessMode.moveT → f ∈ st.mvd) ∧
    (ct = AccessMode.exclT → f ∈ st.mmut) ∧
    (ct = AccessMode.sharedT → f ∈ st.immb)


/-- Pairwise discipline between two parameters of the same call that
reference the same producer: an earlier ownership-transfer blocks everything,
an exclusive access never coexists with another exclusive, shared, or
ownership-transfer access on the same producer. -/
def Pairw (ps : List (ParamType × Nat × AccessMode)) : Prop :=
  ∀ j k f ctj ctk, j < k →
    ps.getD j default = (ParamType.funcReturn, f, ctj) →
    ps.getD k default = (ParamType.funcReturn, f, ctk) →
    ctj ≠ AccessMode.moveT ∧
    (ctj = AccessMode.exclT →
      ctk ≠ AccessMode.exclT ∧ ctk ≠ AccessMode.sharedT ∧ ctk ≠ AccessMode.moveT) ∧
    (ctk = AccessMode.exclT → ctj ≠ AccessMode.exclT ∧ ctj ≠ AccessMode.sharedT) ∧
    (ctk = AccessMode.moveT → ctj ≠ AccessMode.exclT ∧ ctj ≠ AccessMode.sharedT)


/-! ## Concrete fixtures for the closed-form theorems -/

/-- A small concrete oracle: type `0` is a fixed-size fuzzable scalar, type
`3` is a variable-length fuzzable value, every other type is non-fuzzable;
no function is a start or end function. -/
def o_test : Oracle :=
  { same_type := fun _ _ => AccessMode.incompat
    substitute_type := fun t _ => some t
    is_fuzzable_type := fun t _ => t == 0 || t == 3
    fuzzable_call_type := fun t _ =>
      if t == 3 then (FuzzableType.varLen, AccessMode.copyT)
      else (FuzzableType.fixedSize 4, AccessMode.copyT)
    need_mut := fun _ => false
    call_uns := fun _ => false
    is_end_fn := fun _ => false
    is_start_fn := fun _ => false }

/-- Producer of the opaque type `1` (`open`-like, no parameters). -/
def fn_prod : ApiFunction := ⟨"p", [], some 1, 0, false, none⟩

/-- Consumer of the opaque type `1` (`write`-like, one parameter). -/
def fn_cons : ApiFunction := ⟨"c", [1], none, 0, false, none⟩

/-- Consumer with two parameters of the opaque types `1` and `2`. -/
def fn_cons2 : ApiFunction := ⟨"c2", [1, 2], none, 0, false, none⟩

/-- Edge: result of function 0 feeds parameter 0 of function 1 under
exclusive access. -/
def c2x_deps : List ApiDependency :=
  [⟨(ApiType.bareFunction, 0), (ApiType.bareFunction, 1), 0, AccessMode.exclT⟩]

/-- `[p]`: one producing call. -/
def c2_s1 : ApiSequence :=
  ⟨[⟨(ApiType.bareFunction, 0), []⟩], [], [], [], [], [], false, []⟩

/-- `[p, c]`: the consumer takes the producer's result exclusively. -/
def c2_s2 : ApiSequence :=
  ⟨[⟨(ApiType.bareFunction, 0), []⟩,
    ⟨(ApiType.bareFunction, 1), [(ParamType.funcReturn, 0, AccessMode.exclT)]⟩],
   [], [0], [], [], [], false, []⟩

/-- `[p, c, c]`: a second, later exclusive access to the same result. -/
def c2_s3 : ApiSequence :=
  ⟨[⟨(ApiType.bareFunction, 0), []⟩,
    ⟨(ApiType.bareFunction, 1), [(ParamType.funcReturn, 0, AccessMode.exclT)]⟩,
    ⟨(ApiType.bareFunction, 1), [(ParamType.funcReturn, 0, AccessMode.exclT)]⟩],
   [], [0, 0], [], [], [], false, []⟩

/-- Edge: result of function 0 feeds parameter 0 of function 1 by value. -/
def c4_deps : List ApiDependency :=
  [⟨(ApiType.bareFunction, 0), (ApiType.bareFunction, 1), 0, AccessMode.copyT⟩]

/-- Two producing calls; the first call's result is already moved. -/
def c4_seq : ApiSequence :=
  ⟨[⟨(ApiType.bareFunction, 0), []⟩, ⟨(ApiType.bareFunction, 0), []⟩],
   [], [], [0], [], [], false, []⟩

/-- The admitted extension: the consumer selects call 1, never the moved
call 0. -/
def c4_out : ApiSequence :=
  ⟨[⟨(ApiType.bareFunction, 0), []⟩, ⟨(ApiType.bareFunction, 0), []⟩,
    ⟨(ApiType.bareFunction, 1), [(ParamType.funcReturn, 1, AccessMode.copyT)]⟩],
   [], [0], [0], [], [], false, []⟩

/-- Catalog for the backward-search counterexample: function 0 consumes the
opaque type `1`; function 1 (a higher index than the target) produces it. -/
def c1_graph : ApiGraph :=
  ⟨"t", [⟨"f0", [1], none, 0, false, none⟩, ⟨"f1", [], some 1, 0, false, none⟩],
   [false, false],
   [⟨(ApiType.bareFunction, 1), (ApiType.bareFunction, 0), 0, AccessMode.copyT⟩],
   []⟩

/-- A `serde_json` catalog of 42 parameterless functions, for exercising the
per-library coverage target (41) of `check_all_visited`. -/
def g42 : ApiGraph :=
  ⟨"serde_json", List.replicate 42 ⟨"f", [], some 1, 0, false, none⟩, [], [], []⟩

/-- A one-function catalog for the bfs length-bound witness. -/
def c6w_graph : ApiGraph := ⟨"t", [⟨"f", [], some 1, 0, false, none⟩], [], [], []⟩

/-- Full replay of a chain in which every call is admissible: the list of
successively admitted sequences together with the final one (a specification
helper used to state the prefix-keeping property of `real_world`). -/
def replay_all (funcs : List ApiFunction) (deps : List ApiDependency) (o : Oracle) :
    List String → ApiSequence → Option (List ApiSequence × ApiSequence)
  | [], s => some ([], s)
  | func_path :: rest, s =>
      match funcs.enum.find? (fun p => p.snd.full_name == func_path) with
      | some fi =>
          match is_fun_satisfied funcs deps o ApiType.bareFunction fi.fst s with
          | some ns =>
              match replay_all funcs deps o rest ns with
              | some (outs, last) => some (ns :: outs, last)
              | none => none
          | none => none
      | none => none

/-- Catalog for the replay fixtures: `"a"` has no parameters, `"b"` has one
non-fuzzable parameter with no producer. -/
def c7_graph : ApiGraph :=
  ⟨"t", [⟨"a", [], some 1, 0, false, none⟩, ⟨"b", [2], none, 0, false, none⟩],
   [], [], []⟩

/-- The sequence obtained by replaying one `"a"` call. -/
def c7_s1 : ApiSequence :=
  ⟨[⟨(ApiType.bareFunction, 0), []⟩], [], [], [], [], [], false, []⟩

/-- A one-function catalog with a pre-existing one-call pool sequence, for
showing that `bfs` retains and extends the incoming pool. -/
def c10_graph : ApiGraph :=
  ⟨"t", [⟨"f", [], some 1, 0, false, none⟩], [], [],
   [⟨[⟨(ApiType.bareFunction, 0), []⟩], [], [], [], [], [], false, []⟩]⟩

/-! ## Basic lemmas -/

/-- `dep_matches` constrains only the triple, never the access mode. -/
theorem dep_matches_iff (d : ApiDependency) (ot : ApiType) (oi : Nat)
    (it : ApiType) (ii : Nat) (k : Nat) :
    dep_matches d ot oi it ii k ↔
      d.output_fun = (ot, oi) ∧ d.input_fun = (it, ii) ∧ d.input_param_index = k := by
  cases d with
  | mk a b c e =>
    simp only [dep_matches, ApiDependency.mk.injEq, and_true]

theorem check_dep_from_iff (ot : ApiType) (oi : Nat) (it : ApiType) (ii : Nat)
    (k : Nat) (l : List ApiDependency) :
    ∀ base idx,
      (check_dep_from ot oi it ii k base l = some idx ↔
        ∃ n, n < l.length ∧ idx = base + n ∧
          dep_matches (l.getD n default) ot oi it ii k ∧
          ∀ j, j < n → ¬ dep_matches (l.getD j default) ot oi it ii k) := by
  induction l with
  | nil => intro base idx; simp [check_dep_from]
  | cons d rest ih =>
    intro base idx
    by_cases hd : dep_matches d ot oi it ii k
    · simp only [check_dep_from, if_pos hd]
      constructor
      · rintro h
        refine ⟨0, by simp, ?_, by simpa using hd, by simp⟩
        simpa using (Option.some.inj h).symm
      · rintro ⟨n, hn, hidx, hm, hlt⟩
        rcases Nat.eq_zero_or_pos n with rfl | hpos
        · simp [hidx]
        · exact absurd (by simpa using hlt 0 hpos) (by simpa using hd)
    · simp only [check_dep_from, if_neg hd]
      rw [ih (base + 1) idx]
      constructor
      · rintro ⟨n, hn, hidx, hm, hlt⟩
        refine ⟨n + 1, by simpa using Nat.succ_lt_succ hn, by omega, by simpa using hm, ?_⟩
        intro j hj
        cases j with
        | zero => simpa using hd
        | succ j => exact (by simpa using hlt j (Nat.lt_of_succ_lt_succ hj))
      · rintro ⟨n, hn, hidx, hm, hlt⟩
        cases n with
        | zero => exact absurd (by simpa using hm) hd
        | succ n =>
          refine ⟨n, Nat.lt_of_succ_lt_succ hn, by omega, by simpa using hm, ?_⟩
          intro j hj
          have := hlt (j + 1) (Nat.succ_lt_succ hj)
          simpa using this

theorem find_all_dependencies_mem_iff (o : Oracle) (funcs : List ApiFunction)
    (d : ApiDependency) :
    d ∈ find_all_dependencies o funcs ↔
      ∃ i, i < funcs.length ∧ ∃ j, j < funcs.length ∧
        ∃ k, k < (funcs.getD j default).inputs.length ∧
        ¬ o.is_end_fn (funcs.getD i default) ∧
        ¬ o.is_start_fn (funcs.getD j default) ∧
        ∃ oty, (funcs.getD i default).output = some oty ∧
        ∃ ot, o.substitute_type oty (funcs.getD i default).gsub = some ot ∧
        ∃ it, o.substitute_type ((funcs.getD j default).inputs.getD k default)
                (funcs.getD j default).gsub = some it ∧
        o.same_type ot it ≠ AccessMode.incompat ∧
        d = ⟨(ApiType.bareFunction, i), (ApiType.bareFunction, j), k,
              o.same_type ot it⟩ := by
  simp only [find_all_dependencies, List.mem_bind, List.mem_range]
  constructor
  · rintro ⟨i, hi, hmem⟩
    refine ⟨i, hi, ?_⟩
    split at hmem
    · simp at hmem
    · rename_i hend
      split at hmem
      · simp at hmem
      · rename_i oty hout
        simp only [List.mem_bind, List.mem_range] at hmem
        rcases hmem with ⟨j, hj, hmem⟩
        refine ⟨j, hj, ?_⟩
        split at hmem
        · simp at hmem
        · rename_i hstart
          simp only [List.mem_bind, List.mem_range] at hmem
          rcases hmem with ⟨k, hk, hmem⟩
          refine ⟨k, hk, by simpa using hend, by simpa using hstart, oty, hout, ?_⟩
          split at hmem
          · simp at hmem
          · rename_i ot hso
            split at hmem
            · simp at hmem
            · rename_i it hsi
              refine ⟨ot, hso, it, hsi, ?_⟩
              split at hmem
              · simp at hmem
              · rename_i ct hct hne
                simp only [List.mem_singleton] at hmem
                constructor
                · intro hbad
                  rcases hst : o.same_type ot it
                  all_goals rw [hst] at hbad hne <;> simp_all
                · rcases hst : o.same_type ot it
                  all_goals rw [hst] at hne hmem <;> simp_all
  · rintro ⟨i, hi, j, hj, k, hk, hend, hstart, oty, hout, ot, hso, it, hsi, hne, rfl⟩
    refine ⟨i, hi, ?_⟩
    rw [if_neg (by simpa using hend), hout]
    refine List.mem_bind.mpr ⟨j, List.mem_range.mpr hj, ?_⟩
    rw [if_neg (by simpa using hstart)]
    refine List.mem_bind.mpr ⟨k, List.mem_range.mpr hk, ?_⟩
    rcases hst : o.same_type ot it
    all_goals simp only [hso, hsi, hst] <;> simp_all

/-! Frame lemmas for the sequence and state transformers. -/

@[simp] theorem add_dependency_functions (s : ApiSequence) (d : Nat) :
    (s.add_dependency d).functions = s.functions := rfl
@[simp] theorem add_dependency_moved (s : ApiSequence) (d : Nat) :
    (s.add_dependency d).moved_set = s.moved_set := rfl
@[simp] theorem add_dependency_fuzz (s : ApiSequence) (d : Nat) :
    (s.add_dependency d).fuzzable_params = s.fuzzable_params := rfl
@[simp] theorem ins_fn_mut_functions (s : ApiSequence) (i : Nat) :
    (s.ins_fn_mut i).functions = s.functions := rfl
@[simp] theorem ins_fn_mut_moved (s : ApiSequence) (i : Nat) :
    (s.ins_fn_mut i).moved_set = s.moved_set := rfl
@[simp] theorem ins_fn_mut_fuzz (s : ApiSequence) (i : Nat) :
    (s.ins_fn_mut i).fuzzable_params = s.fuzzable_params := rfl
@[simp] theorem ins_fuzz_mut_functions (s : ApiSequence) (i : Nat) :
    (s.ins_fuzz_mut i).functions = s.functions := rfl
@[simp] theorem ins_fuzz_mut_moved (s : ApiSequence) (i : Nat) :
    (s.ins_fuzz_mut i).moved_set = s.moved_set := rfl
@[simp] theorem ins_fuzz_mut_fuzz (s : ApiSequence) (i : Nat) :
    (s.ins_fuzz_mut i).fuzzable_params = s.fuzzable_params := rfl
@[simp] theorem set_uns_functions (s : ApiSequence) :
    s.set_uns.functions = s.functions := rfl
@[simp] theorem set_uns_moved (s : ApiSequence) :
    s.set_uns.moved_set = s.moved_set := rfl
@[simp] theorem set_uns_fuzz (s : ApiSequence) :
    s.set_uns.fuzzable_params = s.fuzzable_params := rfl
@[simp] theorem add_trait_functions (s : ApiSequence) (t : String) :
    (s.add_trait t).functions = s.functions := rfl
@[simp] theorem add_trait_moved (s : ApiSequence) (t : String) :
    (s.add_trait t).moved_set = s.moved_set := rfl
@[simp] theorem add_trait_fuzz (s : ApiSequence) (t : String) :
    (s.add_trait t).fuzzable_params = s.fuzzable_params := rfl
@[simp] theorem add_fn_functions (s : ApiSequence) (c : ApiCall) :
    (s.add_fn c).functions = s.functions ++ [c] := rfl
@[simp] theorem add_fn_moved (s : ApiSequence) (c : ApiCall) :
    (s.add_fn c).moved_set = s.moved_set := rfl
@[simp] theorem add_fn_fuzz (s : ApiSequence) (c : ApiCall) :
    (s.add_fn c).fuzzable_params = s.fuzzable_params := rfl
@[simp] theorem ins_move_moved (s : ApiSequence) (i : Nat) :
    (s.ins_move i).moved_set = i :: s.moved_set := rfl
@[simp] theorem ins_move_functions (s : ApiSequence) (i : Nat) :
    (s.ins_move i).functions = s.functions := rfl
@[simp] theorem ins_move_fuzz (s : ApiSequence) (i : Nat) :
    (s.ins_move i).fuzzable_params = s.fuzzable_params := rfl
@[simp] theorem add_param_params (c : ApiCall) (pt : ParamType) (i : Nat)
    (ct : AccessMode) : (c.add_param pt i ct).params = c.params ++ [(pt, i, ct)] := rfl
@[simp] theorem add_param_func (c : ApiCall) (pt : ParamType) (i : Nat)
    (ct : AccessMode) : (c.add_param pt i ct).func = c.func := rfl

@[simp] theorem tda_move_call (ty : RustType) (ct : AccessMode) (f : Nat) (st : AdmSt) :
    (tda_move ty ct f st).call = st.call := by unfold tda_move; split <;> rfl
@[simp] theorem tda_move_seq (ty : RustType) (ct : AccessMode) (f : Nat) (st : AdmSt) :
    (tda_move ty ct f st).seq = st.seq := by unfold tda_move; split <;> rfl
@[simp] theorem tda_move_mmut (ty : RustType) (ct : AccessMode) (f : Nat) (st : AdmSt) :
    (tda_move ty ct f st).mmut = st.mmut := by unfold tda_move; split <;> rfl
@[simp] theorem tda_move_immb (ty : RustType) (ct : AccessMode) (f : Nat) (st : AdmSt) :
    (tda_move ty ct f st).immb = st.immb := by unfold tda_move; split <;> rfl
theorem tda_move_mvd (ty : RustType) (ct : AccessMode) (f : Nat) (st : AdmSt) :
    (tda_move ty ct f st).mvd =
      if ct = AccessMode.moveT then f :: st.mvd else st.mvd := by
  unfold tda_move move_condition; split <;> simp_all

@[simp] theorem tda_mut_call (ty : RustType) (ct : AccessMode) (f : Nat) (st : AdmSt) :
    (tda_mut ty ct f st).call = st.call := by unfold tda_mut; split <;> rfl
@[simp] theorem tda_mut_seq (ty : RustType) (ct : AccessMode) (f : Nat) (st : AdmSt) :
    (tda_mut ty ct f st).seq = st.seq := by unfold tda_mut; split <;> rfl
@[simp] theorem tda_mut_mvd (ty : RustType) (ct : AccessMode) (f : Nat) (st : AdmSt) :
    (tda_mut ty ct f st).mvd = st.mvd := by unfold tda_mut; split <;> rfl
@[simp] theorem tda_mut_immb (ty : RustType) (ct : AccessMode) (f : Nat) (st : AdmSt) :
    (tda_mut ty ct f st).immb = st.immb := by unfold tda_mut; split <;> rfl
theorem tda_mut_mmut (ty : RustType) (ct : AccessMode) (f : Nat) (st : AdmSt) :
    (tda_mut ty ct f st).mmut =
      if ct = AccessMode.exclT then f :: st.mmut else st.mmut := by
  unfold tda_mut mut_borrow_occurs; split <;> simp_all

@[simp] theorem tda_imm_call (ty : RustType) (ct : AccessMode) (f : Nat) (st : AdmSt) :
    (tda_imm ty ct f st).call = st.call := by unfold tda_imm; split <;> rfl
@[simp] theorem tda_imm_seq (ty : RustType) (ct : AccessMode) (f : Nat) (st : AdmSt) :
    (tda_imm ty ct f st).seq = st.seq := by unfold tda_imm; split <;> rfl
@[simp] theorem tda_imm_mvd (ty : RustType) (ct : AccessMode) (f : Nat) (st : AdmSt) :
    (tda_imm ty ct f st).mvd = st.mvd := by unfold tda_imm; split <;> rfl
@[simp] theorem tda_imm_mmut (ty : RustType) (ct : AccessMode) (f : Nat) (st : AdmSt) :
    (tda_imm ty ct f st).mmut = st.mmut := by unfold tda_imm; split <;> rfl
theorem tda_imm_immb (ty : RustType) (ct : AccessMode) (f : Nat) (st : AdmSt) :
    (tda_imm ty ct f st).immb =
      if ct = AccessMode.sharedT then f :: st.immb else st.immb := by
  unfold tda_imm imm_borrow_occurs; split <;> simp_all

@[simp] theorem tda_tag_call (o : Oracle) (ct : AccessMode) (f : Nat) (st : AdmSt) :
    (tda_tag o ct f st).call = st.call := by unfold tda_tag; split <;> rfl
@[simp] theorem tda_tag_mvd (o : Oracle) (ct : AccessMode) (f : Nat) (st : AdmSt) :
    (tda_tag o ct f st).mvd = st.mvd := by unfold tda_tag; split <;> rfl
@[simp] theorem tda_tag_mmut (o : Oracle) (ct : AccessMode) (f : Nat) (st : AdmSt) :
    (tda_tag o ct f st).mmut = st.mmut := by unfold tda_tag; split <;> rfl
@[simp] theorem tda_tag_immb (o : Oracle) (ct : AccessMode) (f : Nat) (st : AdmSt) :
    (tda_tag o ct f st).immb = st.immb := by unfold tda_tag; split <;> rfl
@[simp] theorem tda_tag_functions (o : Oracle) (ct : AccessMode) (f : Nat) (st : AdmSt) :
    (tda_tag o ct f st).seq.functions = st.seq.functions := by
  unfold tda_tag; split <;> simp
@[simp] theorem tda_tag_moved (o : Oracle) (ct : AccessMode) (f : Nat) (st : AdmSt) :
    (tda_tag o ct f st).seq.moved_set = st.seq.moved_set := by
  unfold tda_tag; split <;> simp
@[simp] theorem tda_tag_fuzz (o : Oracle) (ct : AccessMode) (f : Nat) (st : AdmSt) :
    (tda_tag o ct f st).seq.fuzzable_params = st.seq.fuzzable_params := by
  unfold tda_tag; split <;> simp

@[simp] theorem tda_uns_call (o : Oracle) (ct : AccessMode) (st : AdmSt) :
    (tda_uns o ct st).call = st.call := by unfold tda_uns; split <;> rfl
@[simp] theorem tda_uns_mvd (o : Oracle) (ct : AccessMode) (st : AdmSt) :
    (tda_uns o ct st).mvd = st.mvd := by unfold tda_uns; split <;> rfl
@[simp] theorem tda_uns_mmut (o : Oracle) (ct : AccessMode) (st : AdmSt) :
    (tda_uns o ct st).mmut = st.mmut := by unfold tda_uns; split <;> rfl
@[simp] theorem tda_uns_immb (o : Oracle) (ct : AccessMode) (st : AdmSt) :
    (tda_uns o ct st).immb = st.immb := by unfold tda_uns; split <;> rfl
@[simp] theorem tda_uns_functions (o : Oracle) (ct : AccessMode) (st : AdmSt) :
    (tda_uns o ct st).seq.functions = st.seq.functions := by
  unfold tda_uns; split <;> simp
@[simp] theorem tda_uns_moved (o : Oracle) (ct : AccessMode) (st : AdmSt) :
    (tda_uns o ct st).seq.moved_set = st.seq.moved_set := by
  unfold tda_uns; split <;> simp
@[simp] theorem tda_uns_fuzz (o : Oracle) (ct : AccessMode) (st : AdmSt) :
    (tda_uns o ct st).seq.fuzzable_params = st.seq.fuzzable_params := by
  unfold tda_uns; split <;> simp

theorem try_dep_at_spec (funcs : List ApiFunction) (deps : List ApiDependency)
    (o : Oracle) (in_idx i : Nat) (ty : RustType) (st : AdmSt) (f : Nat) :
    (∃ st2, try_dep_at funcs deps o in_idx i ty st f = DepStep.cont st2 ∧
       ContFrame st st2) ∨
    (∃ st2, try_dep_at funcs deps o in_idx i ty st f = DepStep.found st2 ∧
       FoundFacts f st st2) := by
  unfold try_dep_at
  dsimp only
  split
  · exact Or.inl ⟨st, rfl, rfl, rfl, rfl, rfl, rfl, rfl, rfl⟩
  · rename_i hnm
    push_neg at hnm
    split
    · exact Or.inl ⟨st, rfl, rfl, rfl, rfl, rfl, rfl, rfl, rfl⟩
    · rename_i dep_idx hdep
      split
      · -- move-check rejection: cont on st1 (covered edge recorded)
        exact Or.inl ⟨_, rfl, rfl, rfl, rfl, rfl, by simp, by simp, by simp⟩
      · rename_i hc1
        split
        · -- mutable-borrow rejection: cont on tda_move applied state
          rename_i hc2
          have hmut : mut_borrow_occurs ty (deps.getD dep_idx default).call_type := hc2.1
          have hmove : ¬ ((deps.getD dep_idx default).call_type = AccessMode.moveT) := by
            simp only [mut_borrow_occurs] at hmut
            rw [hmut]
            decide
          refine Or.inl ⟨_, rfl, by simp, ?_, by simp, by simp, by simp, by simp, by simp⟩
          rw [tda_move_mvd, if_neg hmove]
        · rename_i hc2
          split
          · -- immutable-borrow rejection: cont on tda_mut-applied state
            rename_i hc3
            have himm : imm_borrow_occurs ty (deps.getD dep_idx default).call_type := hc3.1
            have hmove : ¬ ((deps.getD dep_idx default).call_type = AccessMode.moveT) := by
              simp only [imm_borrow_occurs] at himm
              rw [himm]
              decide
            have hmut : ¬ ((deps.getD dep_idx default).call_type = AccessMode.exclT) := by
              simp only [imm_borrow_occurs] at himm
              rw [himm]
              decide
            refine Or.inl ⟨_, rfl, by simp, ?_, ?_, by simp, by simp, by simp, by simp⟩
            · rw [tda_mut_mvd, tda_move_mvd, if_neg hmove]
            · rw [tda_mut_mmut, if_neg hmut]
              simp
          · rename_i hc3
            refine Or.inr ⟨_, rfl, (deps.getD dep_idx default).call_type,
              by simp, by simp, by simp, by simp, ?_, ?_, ?_, hnm.1, hnm.2, ?_, ?_, ?_⟩
            · -- mvd component
              simp only [tda_uns_mvd, tda_tag_mvd, tda_imm_mvd, tda_mut_mvd, tda_move_mvd]
            · -- mmut component
              simp only [tda_uns_mmut, tda_tag_mmut, tda_imm_mmut, tda_mut_mmut,
                tda_move_mmut]
            · -- immb component
              simp only [tda_uns_immb, tda_tag_immb, tda_imm_immb, tda_mut_immb,
                tda_move_immb]
            · -- moveT guard
              intro hmv
              have : ¬ (f ∈ st.mmut ∨ f ∈ st.immb) := by
                intro hor
                exact hc1 ⟨by simpa [move_condition] using hmv, by simpa using hor⟩
              push_neg at this
              exact this
            · -- exclT guard
              intro hex
              have : ¬ (f ∈ st.mmut ∨ f ∈ st.immb) := by
                intro hor
                refine hc2 ⟨by simpa [mut_borrow_occurs] using hex, ?_⟩
                simpa using hor
              push_neg at this
              exact this
            · -- sharedT guard
              intro hsh
              intro hmm
              refine hc3 ⟨by simpa [imm_borrow_occurs] using hsh, ?_⟩
              rw [tda_mut_mmut, tda_move_mmut]
              split
              · exact List.mem_cons_of_mem f hmm
              · simpa using hmm

theorem FoundFacts_of_cont {st stc st' : AdmSt} {f : Nat}
    (h1 : ContFrame st stc) (h2 : FoundFacts f stc st') : FoundFacts f st st' := by
  obtain ⟨c1, c2, c3, c4, c5, c6, c7⟩ := h1
  obtain ⟨ct, e1, e2, e3, e4, e5, e6, e7, g1, g2, g3, g4, g5⟩ := h2
  rw [c6] at g1
  rw [c2] at g2
  rw [c3] at g3 g4 g5
  rw [c4] at g3 g4
  refine ⟨ct, ?_, ?_, ?_, ?_, ?_, ?_, ?_, g1, g2, g3, g4, g5⟩
  · rw [e1, c1]
  · rw [e2, c5]
  · rw [e3, c6]
  · rw [e4, c7]
  · rw [e5, c2]
  · rw [e6, c3]
  · rw [e7, c4]

/-- A successful producer scan accepts exactly one producer from the scanned
index list, with all `FoundFacts` holding relative to the scan's entry
state. -/
theorem find_dep_spec (funcs : List ApiFunction) (deps : List ApiDependency)
    (o : Oracle) (in_idx i : Nat) (ty : RustType) :
    ∀ (l : List Nat) (st st' : AdmSt),
      find_dep funcs deps o in_idx i ty st l = some st' →
      ∃ f, f ∈ l ∧ FoundFacts f st st' := by
  intro l
  induction l with
  | nil => intro st st' h; simp [find_dep] at h
  | cons f rest ih =>
    intro st st' h
    rw [find_dep] at h
    rcases try_dep_at_spec funcs deps o in_idx i ty st f with ⟨stc, hc, hframe⟩ | ⟨st2, hf, hfacts⟩
    · rw [hc] at h
      rcases ih stc st' h with ⟨f2, hf2, hfacts⟩
      exact ⟨f2, List.mem_cons_of_mem f hf2, FoundFacts_of_cont hframe hfacts⟩
    · rw [hf] at h
      exact ⟨f, List.mem_cons_self f rest, by rwa [← Option.some.inj h]⟩

/-- The default parameter entry is a fuzzable one, so positional reasoning
about function-return parameters is unaffected by out-of-range reads. -/
theorem default_param_fuzz :
    (default : ParamType × Nat × AccessMode).fst = ParamType.fuzzType := rfl

/-- The default parameter entry is never a function-return entry. -/
theorem default_param_ne_fr (f : Nat) (ct : AccessMode) :
    (default : ParamType × Nat × AccessMode) ≠ (ParamType.funcReturn, f, ct) := by
  intro h
  have h1 : (default : ParamType × Nat × AccessMode) =
      (ParamType.fuzzType, 0, AccessMode.moveT) := rfl
  rw [h1] at h
  simp at h

theorem pairw_nil : Pairw [] := by
  intro j k f ctj ctk hjk hj hk
  exact absurd hj (default_param_ne_fr f ctj)

/-- Reading an appended singleton positionally. -/
theorem getD_append_lt {α : Type} [Inhabited α] (ps : List α) (p : α) {k : Nat}
    (hk : k < ps.length) : (ps ++ [p]).getD k default = ps.getD k default :=
  List.getD_append _ _ _ _ hk

theorem getD_append_last {α : Type} [Inhabited α] (ps : List α) (p : α) :
    (ps ++ [p]).getD ps.length default = p := by
  rw [List.getD_append_right _ _ _ _ (Nat.le_refl _)]
  simp [List.getD]

theorem getD_append_gt {α : Type} [Inhabited α] (ps : List α) (p : α) {k : Nat}
    (hk : ps.length < k) : (ps ++ [p]).getD k default = default := by
  apply List.getD_eq_default
  simp
  omega

theorem pairw_append_fuzz (ps : List (ParamType × Nat × AccessMode))
    (idx : Nat) (ct : AccessMode) (h : Pairw ps) :
    Pairw (ps ++ [(ParamType.fuzzType, idx, ct)]) := by
  intro j k f ctj ctk hjk hj hk
  rcases Nat.lt_trichotomy k ps.length with hk' | hk' | hk'
  · rw [getD_append_lt _ _ (Nat.lt_trans hjk hk')] at hj
    rw [getD_append_lt _ _ hk'] at hk
    exact h j k f ctj ctk hjk hj hk
  · subst hk'
    rw [getD_append_last] at hk
    exact absurd hk (by simp)
  · rw [getD_append_gt _ _ hk'] at hk
    exact absurd hk (default_param_ne_fr f ctk)

theorem getD_mem_of_lt {α : Type} [Inhabited α] (l : List α) {j : Nat}
    (h : j < l.length) : l.getD j default ∈ l := by
  induction l generalizing j with
  | nil => simp at h
  | cons a rest ih =>
    cases j with
    | zero => simp [List.getD]
    | succ j =>
      simp only [List.getD_cons_succ]
      exact List.mem_cons_of_mem a (ih (Nat.lt_of_succ_lt_succ h))

theorem pairw_append_found (st st' : AdmSt) (f : Nat)
    (hM : Marked st) (hP : Pairw st.call.params) (hff : FoundFacts f st st') :
    Pairw st'.call.params := by
  obtain ⟨ct, e1, e2, e3, e4, e5, e6, e7, g1, g2, g3, g4, g5⟩ := hff
  rw [e1]
  simp only [add_param_params]
  intro j k f' ctj ctk hjk hj hk
  rcases Nat.lt_trichotomy k st.call.params.length with hk' | hk' | hk'
  · rw [getD_append_lt _ _ (Nat.lt_trans hjk hk')] at hj
    rw [getD_append_lt _ _ hk'] at hk
    exact hP j k f' ctj ctk hjk hj hk
  · subst hk'
    rw [getD_append_last] at hk
    have hf : f = f' := congrArg (fun p => p.snd.fst) hk
    have hctk : ct = ctk := congrArg (fun p => p.snd.snd) hk
    subst hf
    subst hctk
    rw [getD_append_lt _ _ hjk] at hj
    have hmem : (ParamType.funcReturn, f, ctj) ∈ st.call.params := by
      rw [← hj]
      exact getD_mem_of_lt _ hjk
    have hMj := hM f ctj hmem
    cases ct
    case moveT =>
      obtain ⟨gm1, gm2⟩ := g3 rfl
      refine ⟨fun hc => absurd (hMj.1 hc) g2, fun hc => absurd (hMj.2.1 hc) gm1,
        fun hc => absurd hc (by decide), fun _ => ⟨?_, ?_⟩⟩
      · exact fun hc => absurd (hMj.2.1 hc) gm1
      · exact fun hc => absurd (hMj.2.2 hc) gm2
    case copyT =>
      refine ⟨fun hc => absurd (hMj.1 hc) g2, fun _ => ⟨by decide, by decide, by decide⟩,
        fun hc => absurd hc (by decide), fun hc => absurd hc (by decide)⟩
    case sharedT =>
      have gs := g5 rfl
      refine ⟨fun hc => absurd (hMj.1 hc) g2, fun hc => absurd (hMj.2.1 hc) gs,
        fun hc => absurd hc (by decide), fun hc => absurd hc (by decide)⟩
    case exclT =>
      obtain ⟨ge1, ge2⟩ := g4 rfl
      refine ⟨fun hc => absurd (hMj.1 hc) g2, fun hc => absurd (hMj.2.1 hc) ge1,
        fun _ => ⟨fun hc => absurd (hMj.2.1 hc) ge1, fun hc => absurd (hMj.2.2 hc) ge2⟩,
        fun hc => absurd hc (by decide)⟩
    case incompat =>
      refine ⟨fun hc => absurd (hMj.1 hc) g2, fun _ => ⟨by decide, by decide, by decide⟩,
        fun hc => absurd hc (by decide), fun hc => absurd hc (by decide)⟩
  · rw [getD_append_gt _ _ hk'] at hk
    exact absurd hk (default_param_ne_fr f' ctk)

theorem marked_append_found (st st' : AdmSt) (f : Nat) (hM : Marked st)
    (hff : FoundFacts f st st') : Marked st' := by
  obtain ⟨ct, e1, e2, e3, e4, e5, e6, e7, g1, g2, g3, g4, g5⟩ := hff
  intro f' ct' hmem
  rw [e1] at hmem
  simp only [add_param_params] at hmem
  rcases List.mem_append.mp hmem with hin | hnew
  · have h := hM f' ct' hin
    refine ⟨fun hc => ?_, fun hc => ?_, fun hc => ?_⟩
    · rw [e5]; split
      · exact List.mem_cons_of_mem _ (h.1 hc)
      · exact h.1 hc
    · rw [e6]; split
      · exact List.mem_cons_of_mem _ (h.2.1 hc)
      · exact h.2.1 hc
    · rw [e7]; split
      · exact List.mem_cons_of_mem _ (h.2.2 hc)
      · exact h.2.2 hc
  · rw [List.mem_singleton] at hnew
    have hf : f' = f := (congrArg (fun p => p.snd.fst) hnew)
    have hct : ct' = ct := (congrArg (fun p => p.snd.snd) hnew)
    subst hf
    subst hct
    refine ⟨fun hc => ?_, fun hc => ?_, fun hc => ?_⟩
    · rw [e5, if_pos hc]; exact List.mem_cons_self _ _
    · rw [e6, if_pos hc]; exact List.mem_cons_self _ _
    · rw [e7, if_pos hc]; exact List.mem_cons_self _ _
@[simp] theorem pp_fuzz_tag_call (o : Oracle) (ct : AccessMode) (idx : Nat) (st : AdmSt) :
    (pp_fuzz_tag o ct idx st).call = st.call := by unfold pp_fuzz_tag; split <;> rfl
@[simp] theorem pp_fuzz_tag_mvd (o : Oracle) (ct : AccessMode) (idx : Nat) (st : AdmSt) :
    (pp_fuzz_tag o ct idx st).mvd = st.mvd := by unfold pp_fuzz_tag; split <;> rfl
@[simp] theorem pp_fuzz_tag_mmut (o : Oracle) (ct : AccessMode) (idx : Nat) (st : AdmSt) :
    (pp_fuzz_tag o ct idx st).mmut = st.mmut := by unfold pp_fuzz_tag; split <;> rfl
@[simp] theorem pp_fuzz_tag_immb (o : Oracle) (ct : AccessMode) (idx : Nat) (st : AdmSt) :
    (pp_fuzz_tag o ct idx st).immb = st.immb := by unfold pp_fuzz_tag; split <;> rfl
@[simp] theorem pp_fuzz_tag_functions (o : Oracle) (ct : AccessMode) (idx : Nat) (st : AdmSt) :
    (pp_fuzz_tag o ct idx st).seq.functions = st.seq.functions := by
  unfold pp_fuzz_tag; split <;> simp
@[simp] theorem pp_fuzz_tag_moved (o : Oracle) (ct : AccessMode) (idx : Nat) (st : AdmSt) :
    (pp_fuzz_tag o ct idx st).seq.moved_set = st.seq.moved_set := by
  unfold pp_fuzz_tag; split <;> simp
@[simp] theorem pp_fuzz_tag_fuzz (o : Oracle) (ct : AccessMode) (idx : Nat) (st : AdmSt) :
    (pp_fuzz_tag o ct idx st).seq.fuzzable_params = st.seq.fuzzable_params := by
  unfold pp_fuzz_tag; split <;> simp

@[simp] theorem pp_fuzz_add_call (ft : FuzzableType) (ct : AccessMode) (idx : Nat) (st : AdmSt) :
    (pp_fuzz_add ft ct idx st).call =
      st.call.add_param ParamType.fuzzType idx ct := rfl
@[simp] theorem pp_fuzz_add_mvd (ft : FuzzableType) (ct : AccessMode) (idx : Nat) (st : AdmSt) :
    (pp_fuzz_add ft ct idx st).mvd = st.mvd := rfl
@[simp] theorem pp_fuzz_add_mmut (ft : FuzzableType) (ct : AccessMode) (idx : Nat) (st : AdmSt) :
    (pp_fuzz_add ft ct idx st).mmut = st.mmut := rfl
@[simp] theorem pp_fuzz_add_immb (ft : FuzzableType) (ct : AccessMode) (idx : Nat) (st : AdmSt) :
    (pp_fuzz_add ft ct idx st).immb = st.immb := rfl
@[simp] theorem pp_fuzz_add_functions (ft : FuzzableType) (ct : AccessMode) (idx : Nat) (st : AdmSt) :
    (pp_fuzz_add ft ct idx st).seq.functions = st.seq.functions := rfl
@[simp] theorem pp_fuzz_add_moved (ft : FuzzableType) (ct : AccessMode) (idx : Nat) (st : AdmSt) :
    (pp_fuzz_add ft ct idx st).seq.moved_set = st.seq.moved_set := rfl
@[simp] theorem pp_fuzz_add_fuzz (ft : FuzzableType) (ct : AccessMode) (idx : Nat) (st : AdmSt) :
    (pp_fuzz_add ft ct idx st).seq.fuzzable_params =
      st.seq.fuzzable_params ++ [ft] := rfl

/-- All invariants the per-parameter loop carries to its final state, plus
the frame facts used by the admission-level theorems. -/
theorem process_params_spec (funcs : List ApiFunction) (deps : List ApiDependency)
    (o : Oracle) (fn : ApiFunction) (in_idx seq_len : Nat) :
    ∀ (l : List (Nat × RustType)) (st st' : AdmSt),
      process_params funcs deps o fn in_idx seq_len l st = some st' →
      Marked st → Pairw st.call.params →
      (∀ f ct, (ParamType.funcReturn, f, ct) ∈ st.call.params → f ∉ st.seq.moved_set) →
      Marked st' ∧ Pairw st'.call.params ∧
      (∀ f ct, (ParamType.funcReturn, f, ct) ∈ st'.call.params →
        f ∉ st'.seq.moved_set) ∧
      st'.seq.functions = st.seq.functions ∧
      st'.seq.moved_set = st.seq.moved_set ∧
      st'.call.func = st.call.func := by
  intro l
  induction l with
  | nil =>
    intro st st' h hM hP hN
    rw [process_params] at h
    cases h
    exact ⟨hM, hP, hN, rfl, rfl, rfl⟩
  | cons p rest ih =>
    rcases p with ⟨i, ty⟩
    intro st st' h hM hP hN
    rw [process_params] at h
    split at h
    · -- fuzzable branch
      dsimp only at h
      split at h
      · exact absurd h (by simp)
      · rename_i hft
        have hres := ih _ st' h ?_ ?_ ?_
        · obtain ⟨m1, m2, m3, m4, m5, m6⟩ := hres
          exact ⟨m1, m2, m3, by simpa using m4, by simpa using m5, by simpa using m6⟩
        · -- Marked for the fuzz-extended state
          intro f ct hmem
          simp only [pp_fuzz_add_call, pp_fuzz_tag_call, add_param_params] at hmem
          rcases List.mem_append.mp hmem with hin | hnew
          · have hh := hM f ct hin
            exact ⟨fun hc => by simpa using hh.1 hc, fun hc => by simpa using hh.2.1 hc,
              fun hc => by simpa using hh.2.2 hc⟩
          · rw [List.mem_singleton] at hnew
            exact absurd hnew.symm (by simp)
        · -- Pairw for the fuzz-extended state
          simp only [pp_fuzz_add_call, pp_fuzz_tag_call, add_param_params]
          exact pairw_append_fuzz _ _ _ hP
        · -- No moved references
          intro f ct hmem
          simp only [pp_fuzz_add_call, pp_fuzz_tag_call, add_param_params] at hmem
          rcases List.mem_append.mp hmem with hin | hnew
          · have := hN f ct hin
            simpa using this
          · rw [List.mem_singleton] at hnew
            exact absurd hnew.symm (by simp)
    · -- dependency branch
      split at h
      · exact absurd h (by simp)
      · rename_i st2 hfd
        obtain ⟨f, hfmem, hff⟩ := find_dep_spec funcs deps o in_idx i ty _ st st2 hfd
        obtain ⟨ct, e1, e2, e3, e4, e5, e6, e7, g1, g2, g3, g4, g5⟩ := hff
        have hres := ih _ st' h ?_ ?_ ?_
        · obtain ⟨m1, m2, m3, m4, m5, m6⟩ := hres
          exact ⟨m1, m2, m3, by rw [m4, e2], by rw [m5, e3], by rw [m6, e1]; simp⟩
        · exact marked_append_found st st2 f hM ⟨ct, e1, e2, e3, e4, e5, e6, e7, g1, g2, g3, g4, g5⟩
        · exact pairw_append_found st st2 f hM hP ⟨ct, e1, e2, e3, e4, e5, e6, e7, g1, g2, g3, g4, g5⟩
        · -- No moved references in st2
          intro f2 ct2 hmem
          rw [e1] at hmem
          simp only [add_param_params] at hmem
          rw [e3]
          rcases List.mem_append.mp hmem with hin | hnew
          · exact hN f2 ct2 hin
          · rw [List.mem_singleton] at hnew
            have : f2 = f := congrArg (fun p => p.snd.fst) hnew
            rw [this]
            exact g1

theorem foldl_ins_move_functions (l : List Nat) (s : ApiSequence) :
    (l.foldl (fun acc m => acc.ins_move m) s).functions = s.functions := by
  induction l generalizing s with
  | nil => rfl
  | cons a rest ih => simpa using ih (s.ins_move a)

theorem foldl_ins_move_fuzz (l : List Nat) (s : ApiSequence) :
    (l.foldl (fun acc m => acc.ins_move m) s).fuzzable_params = s.fuzzable_params := by
  induction l generalizing s with
  | nil => rfl
  | cons a rest ih => simpa using ih (s.ins_move a)

theorem mem_foldl_ins_move (l : List Nat) (s : ApiSequence) (x : Nat) :
    x ∈ (l.foldl (fun acc m => acc.ins_move m) s).moved_set ↔
      x ∈ l ∨ x ∈ s.moved_set := by
  induction l generalizing s with
  | nil => simp
  | cons a rest ih =>
    simp only [List.foldl_cons, ih (s.ins_move a), ins_move_moved, List.mem_cons]
    constructor
    · rintro (h | h | h)
      · exact Or.inl (Or.inr h)
      · exact Or.inl (Or.inl h)
      · exact Or.inr h
    · rintro ((h | h) | h)
      · exact Or.inr (Or.inl h)
      · exact Or.inl h
      · exact Or.inr (Or.inr h)

@[simp] theorem ifs_wrap_functions (fn : ApiFunction) (s : ApiSequence) :
    (ifs_wrap fn s).functions = s.functions := by
  unfold ifs_wrap
  rcases fn.trait_path <;> split <;> simp
@[simp] theorem ifs_wrap_moved (fn : ApiFunction) (s : ApiSequence) :
    (ifs_wrap fn s).moved_set = s.moved_set := by
  unfold ifs_wrap
  rcases fn.trait_path <;> split <;> simp
@[simp] theorem ifs_wrap_fuzz (fn : ApiFunction) (s : ApiSequence) :
    (ifs_wrap fn s).fuzzable_params = s.fuzzable_params := by
  unfold ifs_wrap
  rcases fn.trait_path <;> split <;> simp

/-- The master description of a successful admission: the result is the
input sequence (with unsafe/trait bookkeeping folded in) plus exactly one
appended call, whose parameters obey the move/borrow discipline relative to
the input sequence. -/
theorem is_fun_satisfied_spec (funcs : List ApiFunction) (deps : List ApiDependency)
    (o : Oracle) (in_idx : Nat) (seq out : ApiSequence)
    (h : is_fun_satisfied funcs deps o ApiType.bareFunction in_idx seq = some out) :
    ∃ c : ApiCall,
      out.functions = seq.functions ++ [c] ∧
      c.func = (ApiType.bareFunction, in_idx) ∧
      (∀ x, x ∈ seq.moved_set → x ∈ out.moved_set) ∧
      Pairw c.params ∧
      (∀ f ct, (ParamType.funcReturn, f, ct) ∈ c.params →
        f ∉ seq.moved_set ∧ (ct = AccessMode.moveT → f ∈ out.moved_set)) := by
  rw [is_fun_satisfied] at h
  dsimp only at h
  split at h
  · -- zero-parameter fast path
    cases h
    refine ⟨ApiCall.mk_new in_idx, by simp, rfl, by simp, pairw_nil, ?_⟩
    intro f ct hmem
    exact absurd hmem (by simp [ApiCall.mk_new])
  · -- general path
    split at h
    · exact absurd h (by simp)
    · rename_i st hpp
      split at h
      · exact absurd h (by simp)
      · rename_i hdyn
        cases h
        have hres := process_params_spec funcs deps o _ in_idx _ _ _ st hpp
          (by intro f ct hmem; exact absurd hmem (by simp [ApiCall.mk_new]))
          (by simpa [ApiCall.mk_new] using pairw_nil)
          (by intro f ct hmem; exact absurd hmem (by simp [ApiCall.mk_new]))
        obtain ⟨m1, m2, m3, m4, m5, m6⟩ := hres
        refine ⟨st.call, ?_, ?_, ?_, m2, ?_⟩
        · rw [foldl_ins_move_functions]
          simp only [add_fn_functions]
          rw [m4]
          simp
        · rw [m6]
          rfl
        · intro x hx
          rw [mem_foldl_ins_move]
          refine Or.inr ?_
          simp only [add_fn_moved]
          rw [m5]
          simpa using hx
        · intro f ct hmem
          have h3 := m3 f ct hmem
          have h1 := m1 f ct hmem
          constructor
          · rw [m5] at h3
            simpa using h3
          · intro hct
            rw [mem_foldl_ins_move]
            exact Or.inl (h1.1 hct)

/-- A successful admission never makes the dynamic-length fuzzable count
worse: on the zero-parameter path nothing is added, and on every other path
the result is returned only after the multi-dynamic-length check passes. -/
theorem is_fun_satisfied_dyn (funcs : List ApiFunction) (deps : List ApiDependency)
    (o : Oracle) (in_idx : Nat) (seq out : ApiSequence)
    (h : is_fun_satisfied funcs deps o ApiType.bareFunction in_idx seq = some out)
    (hseq : ¬ seq.multi_dyn) : ¬ out.multi_dyn := by
  rw [is_fun_satisfied] at h
  dsimp only at h
  split at h
  · cases h
    intro hbad
    apply hseq
    unfold ApiSequence.multi_dyn at hbad ⊢
    simpa using hbad
  · split at h
    · exact absurd h (by simp)
    · split at h
      · exact absurd h (by simp)
      · rename_i hdyn
        cases h
        exact hdyn

/-- Admission appends exactly one call. -/
theorem is_fun_satisfied_len (funcs : List ApiFunction) (deps : List ApiDependency)
    (o : Oracle) (in_idx : Nat) (seq out : ApiSequence)
    (h : is_fun_satisfied funcs deps o ApiType.bareFunction in_idx seq = some out) :
    out.len = seq.len + 1 := by
  obtain ⟨c, hc, -⟩ := is_fun_satisfied_spec funcs deps o in_idx seq out h
  unfold ApiSequence.len
  rw [hc]
  simp

/-- The zero-parameter fast path of `is_fun_satisfied`, in closed form. -/
theorem is_fun_satisfied_empty (funcs : List ApiFunction) (deps : List ApiDependency)
    (o : Oracle) (in_idx : Nat) (seq : ApiSequence)
    (h : (funcs.getD in_idx default).inputs = []) :
    is_fun_satisfied funcs deps o ApiType.bareFunction in_idx seq =
      some ((ifs_wrap (funcs.getD in_idx default) seq).add_fn (ApiCall.mk_new in_idx)) := by
  rw [is_fun_satisfied]
  dsimp only
  rw [if_pos (by rw [h]; rfl)]

/-! ## Claim theorems -/

/-- C8: for every bare-function candidate whose parameter list is empty and
for every existing sequence, `is_fun_satisfied` succeeds unconditionally,
returning the input sequence with the candidate's unsafe flag and trait
recorded and the new parameterless call appended. -/
theorem claim_c8 (funcs : List ApiFunction) (deps : List ApiDependency)
    (o : Oracle) (in_idx : Nat) (seq : ApiSequence)
    (h : (funcs.getD in_idx default).inputs = []) :
    is_fun_satisfied funcs deps o ApiType.bareFunction in_idx seq =
      some ((ifs_wrap (funcs.getD in_idx default) seq).add_fn
        (ApiCall.mk_new in_idx)) :=
  is_fun_satisfied_empty funcs deps o in_idx seq h

/-- Witness for C8 at a concrete catalog: a parameterless unsafe trait
function is appended unconditionally, recording both the unsafe flag and the
trait. -/
theorem claim_c8_witness :
    (([⟨"a", [], some 1, 0, true, some "T"⟩] : List ApiFunction).getD 0
        default).inputs = [] ∧
    is_fun_satisfied [⟨"a", [], some 1, 0, true, some "T"⟩] [] o_test
        ApiType.bareFunction 0 ApiSequence.mk_new =
      some ((ifs_wrap (([⟨"a", [], some 1, 0, true, some "T"⟩] :
          List ApiFunction).getD 0 default) ApiSequence.mk_new).add_fn
        (ApiCall.mk_new 0)) :=
  ⟨rfl, claim_c8 [⟨"a", [], some 1, 0, true, some "T"⟩] [] o_test 0
    ApiSequence.mk_new rfl⟩

/-- C3: admission preserves the at-most-one variable-length fuzzable
parameter bound: if the input sequence respects it (as every pool sequence
does), so does every sequence `is_fun_satisfied` returns; an extension whose
result would hold more than one is rejected. -/
theorem claim_c3 (funcs : List ApiFunction) (deps : List ApiDependency)
    (o : Oracle) (in_idx : Nat) (seq out : ApiSequence)
    (hseq : seq.fuzzable_params.countP (fun ft => ft == FuzzableType.varLen) ≤ 1)
    (h : is_fun_satisfied funcs deps o ApiType.bareFunction in_idx seq = some out) :
    out.fuzzable_params.countP (fun ft => ft == FuzzableType.varLen) ≤ 1 := by
  have hd := is_fun_satisfied_dyn funcs deps o in_idx seq out h
    (by unfold ApiSequence.multi_dyn; omega)
  unfold ApiSequence.multi_dyn at hd
  omega

/-- Witness for C3: a sequence already holding one variable-length fuzzable
parameter gains a fixed-size one, and the bound still holds. -/
theorem claim_c3_witness :
    (⟨[], [FuzzableType.varLen], [], [], [], [], false, []⟩ :
        ApiSequence).fuzzable_params.countP (fun ft => ft == FuzzableType.varLen) ≤ 1 ∧
    (∀ out, is_fun_satisfied [⟨"b", [0], none, 0, false, none⟩] [] o_test
        ApiType.bareFunction 0
        ⟨[], [FuzzableType.varLen], [], [], [], [], false, []⟩ = some out →
      out.fuzzable_params.countP (fun ft => ft == FuzzableType.varLen) ≤ 1) :=
  ⟨by decide, fun out h => claim_c3 [⟨"b", [0], none, 0, false, none⟩] [] o_test 0
    ⟨[], [FuzzableType.varLen], [], [], [], [], false, []⟩ out (by decide) h⟩

/-- C4: within any sequence admitted through `is_fun_satisfied`, a call
result already in the moved set is never selected again under any access
mode; the moved set persists into the new sequence, and any result the new
call consumes by ownership transfer enters the new sequence's moved set. -/
theorem claim_c4 (funcs : List ApiFunction) (deps : List ApiDependency)
    (o : Oracle) (in_idx : Nat) (seq out : ApiSequence) (f : Nat)
    (h : is_fun_satisfied funcs deps o ApiType.bareFunction in_idx seq = some out)
    (hmoved : f ∈ seq.moved_set) :
    f ∈ out.moved_set ∧
    (∀ c, out.functions = seq.functions ++ [c] →
      (∀ ct, (ParamType.funcReturn, f, ct) ∉ c.params) ∧
      (∀ f2, (ParamType.funcReturn, f2, AccessMode.moveT) ∈ c.params →
        f2 ∈ out.moved_set)) := by
  obtain ⟨c0, hc0, hfn, hmv, hpw, hpar⟩ := is_fun_satisfied_spec funcs deps o in_idx seq out h
  refine ⟨hmv f hmoved, ?_⟩
  intro c hceq
  have hcc : c = c0 := by
    have h1 : (seq.functions ++ [c]).drop seq.functions.length = [c] := List.drop_left _ _
    have h2 : (seq.functions ++ [c0]).drop seq.functions.length = [c0] := List.drop_left _ _
    rw [← hceq] at h1
    rw [← hc0] at h2
    rw [h2] at h1
    exact ((List.cons.injEq _ _ _ _).mp h1).1.symm
  subst hcc
  constructor
  · intro ct hmem
    exact absurd hmoved (hpar f ct hmem).1
  · intro f2 hmem
    exact (hpar f2 AccessMode.moveT hmem).2 rfl

/-- Witness for C4 at a concrete catalog: with the first producing call's
result moved, admission succeeds by selecting the second producing call;
call 0 is untouched and stays moved. -/
theorem claim_c4_witness :
    (0 : Nat) ∈ c4_seq.moved_set ∧
    is_fun_satisfied [fn_prod, fn_cons] c4_deps o_test ApiType.bareFunction 1
      c4_seq = some c4_out ∧
    (0 : Nat) ∈ c4_out.moved_set ∧
    (c4_out.functions.getD 2 default).params =
      [(ParamType.funcReturn, 1, AccessMode.copyT)] := by
  have h := claim_c4 [fn_prod, fn_cons] c4_deps o_test 1 c4_seq c4_out 0
    (by decide) (by decide)
  exact ⟨by decide, by decide, h.1, by decide⟩

/-- C2 (amended): within one admission step, a call result taken under
exclusive access cannot simultaneously carry a second exclusive access, a
shared access, or an ownership transfer in the same call's parameter list.
(The exclusivity is NOT carried to later admission steps — see the
counterexample.) -/
theorem claim_c2 (funcs : List ApiFunction) (deps : List ApiDependency)
    (o : Oracle) (in_idx : Nat) (seq out : ApiSequence) (c : ApiCall)
    (j k f : Nat) (ctj ctk : AccessMode)
    (h : is_fun_satisfied funcs deps o ApiType.bareFunction in_idx seq = some out)
    (hc : out.functions = seq.functions ++ [c])
    (hjk : j < k)
    (hj : c.params.getD j default = (ParamType.funcReturn, f, ctj))
    (hk : c.params.getD k default = (ParamType.funcReturn, f, ctk)) :
    (ctj = AccessMode.exclT →
      ctk ≠ AccessMode.exclT ∧ ctk ≠ AccessMode.sharedT ∧
      ctk ≠ AccessMode.moveT) ∧
    (ctk = AccessMode.exclT →
      ctj ≠ AccessMode.exclT ∧ ctj ≠ AccessMode.sharedT ∧
      ctj ≠ AccessMode.moveT) := by
  obtain ⟨c0, hc0, hfn, hmv, hpw, hpar⟩ := is_fun_satisfied_spec funcs deps o in_idx seq out h
  have hcc : c = c0 := by
    have h1 : (seq.functions ++ [c]).drop seq.functions.length = [c] := List.drop_left _ _
    have h2 : (seq.functions ++ [c0]).drop seq.functions.length = [c0] := List.drop_left _ _
    rw [← hc] at h1
    rw [← hc0] at h2
    rw [h2] at h1
    exact ((List.cons.injEq _ _ _ _).mp h1).1.symm
  subst hcc
  have hp := hpw j k f ctj ctk hjk hj hk
  exact ⟨hp.2.1, fun hx => ⟨(hp.2.2.1 hx).1, (hp.2.2.1 hx).2, hp.1⟩⟩

/-- Witness for C2 at a concrete catalog: one call consumes the same
producer result twice, once exclusively and once by value; the by-value
companion is neither exclusive, shared, nor an ownership transfer, as the
theorem demands. -/
theorem claim_c2_witness :
    is_fun_satisfied [fn_prod, fn_cons2]
        [⟨(ApiType.bareFunction, 0), (ApiType.bareFunction, 1), 0, AccessMode.exclT⟩,
         ⟨(ApiType.bareFunction, 0), (ApiType.bareFunction, 1), 1, AccessMode.copyT⟩]
        o_test ApiType.bareFunction 1 c2_s1 =
      some ⟨[⟨(ApiType.bareFunction, 0), []⟩,
             ⟨(ApiType.bareFunction, 1),
               [(ParamType.funcReturn, 0, AccessMode.exclT),
                (ParamType.funcReturn, 0, AccessMode.copyT)]⟩],
            [], [1, 0], [], [], [], false, []⟩ ∧
    (AccessMode.exclT = AccessMode.exclT →
      AccessMode.copyT ≠ AccessMode.exclT ∧ AccessMode.copyT ≠ AccessMode.sharedT ∧
      AccessMode.copyT ≠ AccessMode.moveT) := by
  refine ⟨by decide, ?_⟩
  have h := claim_c2 [fn_prod, fn_cons2]
    [⟨(ApiType.bareFunction, 0), (ApiType.bareFunction, 1), 0, AccessMode.exclT⟩,
     ⟨(ApiType.bareFunction, 0), (ApiType.bareFunction, 1), 1, AccessMode.copyT⟩]
    o_test 1 c2_s1
    ⟨[⟨(ApiType.bareFunction, 0), []⟩,
      ⟨(ApiType.bareFunction, 1),
        [(ParamType.funcReturn, 0, AccessMode.exclT),
         (ParamType.funcReturn, 0, AccessMode.copyT)]⟩],
     [], [1, 0], [], [], [], false, []⟩
    ⟨(ApiType.bareFunction, 1),
      [(ParamType.funcReturn, 0, AccessMode.exclT),
       (ParamType.funcReturn, 0, AccessMode.copyT)]⟩
    0 1 0 AccessMode.exclT AccessMode.copyT (by decide) (by decide)
    (by decide) (by decide) (by decide)
  exact h.1

/-- Counterexample for C2 as stated: a full admission chain in which call
0's result is taken under exclusive access by call 1 and then AGAIN, in a
later admission step of the same sequence, by call 2 — the borrow-state
sets are local to one admission and do not persist to the sequence's end. -/
theorem claim_c2_counterexample :
    is_fun_satisfied [fn_prod, fn_cons] c2x_deps o_test ApiType.bareFunction 0
        ApiSequence.mk_new = some c2_s1 ∧
    is_fun_satisfied [fn_prod, fn_cons] c2x_deps o_test ApiType.bareFunction 1
        c2_s1 = some c2_s2 ∧
    is_fun_satisfied [fn_prod, fn_cons] c2x_deps o_test ApiType.bareFunction 1
        c2_s2 = some c2_s3 ∧
    (c2_s3.functions.getD 1 default).params =
      [(ParamType.funcReturn, 0, AccessMode.exclT)] ∧
    (c2_s3.functions.getD 2 default).params =
      [(ParamType.funcReturn, 0, AccessMode.exclT)] := by
  decide

/-- C9: `check_dependency` returns the index of the FIRST recorded
dependency whose producer, consumer, and consumer parameter index match the
query, with no constraint on the access mode (the call type is copied from
the candidate before comparison); for a triple recorded with several modes
only the earliest-recorded edge is ever returned. -/
theorem claim_c9 (deps : List ApiDependency) (ot : ApiType) (oi : Nat)
    (it : ApiType) (ii : Nat) (k : Nat) (idx : Nat) :
    check_dependency deps ot oi it ii k = some idx ↔
      idx < deps.length ∧
      ((deps.getD idx default).output_fun = (ot, oi) ∧
        (deps.getD idx default).input_fun = (it, ii) ∧
        (deps.getD idx default).input_param_index = k) ∧
      ∀ j, j < idx →
        ¬ ((deps.getD j default).output_fun = (ot, oi) ∧
           (deps.getD j default).input_fun = (it, ii) ∧
           (deps.getD j default).input_param_index = k) := by
  rw [check_dependency, check_dep_from_iff]
  constructor
  · rintro ⟨n, hn, hidx, hm, hlt⟩
    subst hidx
    simp only [Nat.zero_add] at *
    exact ⟨hn, (dep_matches_iff _ _ _ _ _ _).mp hm,
      fun j hj hc => hlt j hj ((dep_matches_iff _ _ _ _ _ _).mpr hc)⟩
  · rintro ⟨h1, h2, h3⟩
    exact ⟨idx, h1, by omega, (dep_matches_iff _ _ _ _ _ _).mpr h2,
      fun j hj hm => h3 j hj ((dep_matches_iff _ _ _ _ _ _).mp hm)⟩

/-- C5: `find_all_dependencies` records an edge (producer `i`, consumer `j`,
parameter `k`, mode) exactly when the producer has a return type and is not
an end function, the consumer is not a start function, both generic
substitutions succeed, and the oracle classifies the substituted pair as a
mode other than incompatible; the stored mode is that classification. -/
theorem claim_c5 (o : Oracle) (g : ApiGraph) (d : ApiDependency) :
    d ∈ (g.find_all_deps o).api_dependencies ↔
      ∃ i, i < g.api_functions.length ∧ ∃ j, j < g.api_functions.length ∧
        ∃ k, k < (g.api_functions.getD j default).inputs.length ∧
        ¬ o.is_end_fn (g.api_functions.getD i default) ∧
        ¬ o.is_start_fn (g.api_functions.getD j default) ∧
        ∃ oty, (g.api_functions.getD i default).output = some oty ∧
        ∃ ot, o.substitute_type oty (g.api_functions.getD i default).gsub = some ot ∧
        ∃ it, o.substitute_type
                ((g.api_functions.getD j default).inputs.getD k default)
                (g.api_functions.getD j default).gsub = some it ∧
        o.same_type ot it ≠ AccessMode.incompat ∧
        d = ⟨(ApiType.bareFunction, i), (ApiType.bareFunction, j), k,
              o.same_type ot it⟩ :=
  find_all_dependencies_mem_iff o g.api_functions d

theorem rc_producers_congr (funcs : List ApiFunction) (deps : List ApiDependency)
    (o : Oracle) (rc₁ rc₂ : Nat → Option ReverseApiSequence) (tail_idx i : Nat)
    (H : ∀ f, f < tail_idx → rc₁ f = rc₂ f) :
    ∀ (len s : Nat) (st : RCSt), s ≤ tail_idx →
      rc_producers funcs deps o rc₁ tail_idx i st (List.range' s len) =
      rc_producers funcs deps o rc₂ tail_idx i st (List.range' s len) := by
  intro len
  induction len with
  | zero => intro s st hs; rfl
  | succ len ih =>
    intro s st hs
    rw [List.range'_succ]
    by_cases hst : s = tail_idx
    · simp [rc_producers, hst]
    · have hlt : s < tail_idx := Nat.lt_of_le_of_ne hs hst
      rw [rc_producers, rc_producers, if_neg hst, if_neg hst]
      rcases check_dependency deps ApiType.bareFunction s ApiType.bareFunction tail_idx i with _ | dep_idx
      · exact ih (s + 1) st hlt
      · rw [H s hlt]
        rcases rc₂ s with _ | param_seq
        · exact ih (s + 1) st hlt
        · rfl

theorem rc_params_congr (funcs : List ApiFunction) (deps : List ApiDependency)
    (o : Oracle) (rc₁ rc₂ : Nat → Option ReverseApiSequence) (tail_idx : Nat)
    (H : ∀ f, f < tail_idx → rc₁ f = rc₂ f) :
    ∀ (l : List (Nat × RustType)) (st : RCSt),
      rc_params funcs deps o rc₁ tail_idx l st =
      rc_params funcs deps o rc₂ tail_idx l st := by
  intro l
  induction l with
  | nil => intro st; rfl
  | cons p rest ih =>
    rcases p with ⟨i, ty⟩
    intro st
    rw [rc_params, rc_params]
    split
    · dsimp only
      split
      · rfl
      · exact ih _
    · have hr : rc_producers funcs deps o rc₁ tail_idx i st (List.range funcs.length) =
          rc_producers funcs deps o rc₂ tail_idx i st (List.range funcs.length) := by
        rw [List.range_eq_range']
        exact rc_producers_congr funcs deps o rc₁ rc₂ tail_idx i H funcs.length 0 st
          (Nat.zero_le _)
      rw [hr]
      rcases rc_producers funcs deps o rc₂ tail_idx i st (List.range funcs.length) with _ | st2
      · rfl
      · exact ih st2

theorem reverse_construct_depth_free (funcs : List ApiFunction)
    (deps : List ApiDependency) (o : Oracle) :
    ∀ (tail_idx fuel₁ fuel₂ : Nat) (t : ApiType), tail_idx < fuel₁ → tail_idx < fuel₂ →
      reverse_construct funcs deps o fuel₁ t tail_idx =
      reverse_construct funcs deps o fuel₂ t tail_idx := by
  intro tail_idx
  induction tail_idx using Nat.strong_induction_on with
  | _ tail_idx ih =>
    intro fuel₁ fuel₂ t h₁ h₂
    cases fuel₁ with
    | zero => omega
    | succ f1 =>
      cases fuel₂ with
      | zero => omega
      | succ f2 =>
        cases t with
        | genericFunction => rfl
        | bareFunction =>
          rw [reverse_construct, reverse_construct]
          have hc := rc_params_congr funcs deps o
            (fun f => reverse_construct funcs deps o f1 ApiType.bareFunction f)
            (fun f => reverse_construct funcs deps o f2 ApiType.bareFunction f)
            tail_idx
            (fun f hf => ih f hf f1 f2 ApiType.bareFunction (by omega) (by omega))
            (funcs.getD tail_idx default).inputs.enum
            ⟨ReverseApiSequence.mk_new, ApiCall.mk_new tail_idx, [], 1⟩
          dsimp only
          rw [hc]

/-- C1 (amended): `reverse_construct` terminates on every catalog, including
catalogs whose dependency graph has producer cycles — but NOT through a
"currently resolving" set (none exists in the code): the producer loop
breaks upon reaching the target's own index, so recursion only ever descends
to strictly smaller function indices.  Formally: the recursion-depth budget
is irrelevant as soon as it exceeds the target index, i.e. the recursion
needs at most `tail_idx + 1` nested activations. -/
theorem claim_c1 (g : ApiGraph) (o : Oracle) (t : ApiType) (tail_idx fuel : Nat)
    (h : tail_idx < fuel) :
    reverse_construct g.api_functions g.api_dependencies o fuel t tail_idx =
      reverse_construct_run g o t tail_idx :=
  reverse_construct_depth_free g.api_functions g.api_dependencies o tail_idx fuel
    (tail_idx + 1) t h (Nat.lt_succ_self _)

/-- Witness for C1: on the concrete two-function catalog (whose edge list
even contains a backward edge), any large depth budget computes the same
result as the canonical run. -/
theorem claim_c1_witness :
    (1 : Nat) < 7 ∧
    reverse_construct c1_graph.api_functions c1_graph.api_dependencies o_test 7
        ApiType.bareFunction 1 =
      reverse_construct_run c1_graph o_test ApiType.bareFunction 1 :=
  ⟨by decide, claim_c1 c1_graph o_test ApiType.bareFunction 1 7 (by decide)⟩

/-- Counterexample for C1 as stated: the claim says a producer P is sought
"excluding T itself".  Here function 1 is a producer for target 0's only
parameter (the matching edge is recorded and `reverse_construct` builds a
sequence for producer 1 on its own), yet backward construction for target 0
fails: the producer loop BREAKS at index 0 == target and never reaches
producer 1.  There is no currently-resolving set; the search considers only
producers with index strictly below the target. -/
theorem claim_c1_counterexample :
    check_dependency c1_graph.api_dependencies ApiType.bareFunction 1
        ApiType.bareFunction 0 0 = some 0 ∧
    (1 : Nat) ≠ 0 ∧
    reverse_construct_run c1_graph o_test ApiType.bareFunction 1 =
      some ⟨[⟨(ApiType.bareFunction, 1), []⟩], [], [], [], [], false⟩ ∧
    reverse_construct_run c1_graph o_test ApiType.bareFunction 0 = none := by
  decide

theorem foldl_inv {α β : Type} (f : β → α → β) (P : β → Prop) :
    ∀ (l : List α) (b : β), P b → (∀ b2 a, a ∈ l → P b2 → P (f b2 a)) →
      P (l.foldl f b) := by
  intro l
  induction l with
  | nil => intro b hb _; exact hb
  | cons a rest ih =>
    intro b hb hstep
    exact ih (f b a)
      (hstep b a (List.mem_cons_self a rest) hb)
      (fun b2 a2 ha2 => hstep b2 a2 (List.mem_cons_of_mem _ ha2))

@[simp] theorem reset_visited_pool (g : ApiGraph) :
    (g.reset_visited).api_sequences = g.api_sequences := rfl

@[simp] theorem reset_visited_funcs (g : ApiGraph) :
    (g.reset_visited).api_functions = g.api_functions := rfl

@[simp] theorem reset_visited_deps (g : ApiGraph) :
    (g.reset_visited).api_dependencies = g.api_dependencies := rfl

theorem bfs_len_bound (g : ApiGraph) (o : Oracle) (max_len : Nat)
    (se fm : Bool) (s : ApiSequence)
    (hs : s ∈ (g.bfs o max_len se fm).api_sequences) :
    s ∈ g.api_sequences ∨ s.len ≤ max_len := by
  rw [ApiGraph.bfs] at hs
  dsimp only at hs
  split at hs
  · exact Or.inl (by simpa using hs)
  · rename_i hml
    have hml1 : 1 ≤ max_len := by omega
    set P : ApiGraph → Prop :=
      fun gc => (∀ s2, s2 ∈ gc.api_sequences → s2 ∈ g.api_sequences ∨ s2.len ≤ max_len)
        ∧ gc.api_functions = g.api_functions ∧ gc.api_dependencies = g.api_dependencies
      with hP
    refine (foldl_inv _ P (List.range max_len) _ ?_ ?_).1 s hs
    · -- initial state
      refine ⟨?_, by simp, by simp⟩
      intro s2 hs2
      simp only [reset_visited_pool] at hs2
      rcases List.mem_append.mp hs2 with h | h
      · exact Or.inl h
      · rw [List.mem_singleton] at h
        subst h
        exact Or.inr (by simp [ApiSequence.mk_new, ApiSequence.len])
    · -- one round preserves P
      intro gc len hlen hPc
      rw [List.mem_range] at hlen
      set tmp := gc.api_sequences.filter
        (fun s2 => !(se && gc.is_sequence_ended o s2) && s2.len == len) with htmp
      have htmplen : ∀ s2 ∈ tmp, s2.len = len := by
        intro s2 h2
        have h3 := (List.mem_filter.mp h2).2
        simp only [Bool.and_eq_true, beq_iff_eq] at h3
        exact h3.2
      apply foldl_inv
      · exact hPc
      · intro gm sequence hseq hPm
        apply foldl_inv
        · exact hPm
        · intro gi fi hfi hPi
          rw [bfs_step]
          split
          · exact hPi
          · cases hns : gi.is_fun_sat o ApiType.bareFunction fi sequence with
            | none =>
              simp only [hns]
              exact hPi
            | some ns =>
              simp only [hns]
              refine ⟨?_, by simpa using hPi.2.1, by simpa using hPi.2.2⟩
              intro s2 hs2
              simp only at hs2
              rcases List.mem_append.mp hs2 with h | h
              · exact hPi.1 s2 h
              · rw [List.mem_singleton] at h
                subst h
                right
                rw [ApiGraph.is_fun_sat, hPi.2.1, hPi.2.2] at hns
                have hlen2 := is_fun_satisfied_len g.api_functions g.api_dependencies o
                  fi sequence s2 hns
                rw [hlen2, htmplen sequence hseq]
                omega

/-- C6 (amended): `bfs` terminates at the length bound — every sequence it
adds to the pool has length at most `max_len`.  The fast-mode early stop on
full target coverage does NOT exist: the coverage check's early return is
commented out in the source (see the counterexample). -/
theorem claim_c6 (g : ApiGraph) (o : Oracle) (max_len : Nat)
    (stop_at_end_function fast_mode : Bool) (s : ApiSequence)
    (hs : s ∈ (g.bfs o max_len stop_at_end_function fast_mode).api_sequences) :
    s ∈ g.api_sequences ∨ s.len ≤ max_len :=
  bfs_len_bound g o max_len stop_at_end_function fast_mode s hs

/-- Witness for C6: in a one-function catalog the two-round bfs pool holds
the two-call sequence, and its length obeys the bound. -/
theorem claim_c6_witness :
    (⟨[⟨(ApiType.bareFunction, 0), []⟩, ⟨(ApiType.bareFunction, 0), []⟩],
        [], [], [], [], [], false, []⟩ : ApiSequence) ∈
      (c6w_graph.bfs o_test 2 false false).api_sequences ∧
    ((⟨[⟨(ApiType.bareFunction, 0), []⟩, ⟨(ApiType.bareFunction, 0), []⟩],
        [], [], [], [], [], false, []⟩ : ApiSequence) ∈ c6w_graph.api_sequences ∨
      (⟨[⟨(ApiType.bareFunction, 0), []⟩, ⟨(ApiType.bareFunction, 0), []⟩],
        [], [], [], [], [], false, []⟩ : ApiSequence).len ≤ 2) :=
  ⟨by decide, claim_c6 c6w_graph o_test 2 false false _ (by decide)⟩

set_option maxRecDepth 10000 in
/-- Counterexample for C6 as stated: on the 42-function `serde_json` catalog
the per-library coverage target (41) is reached during the very first round,
yet the source's `bfs` admits the 42nd function afterwards (pool of 43),
while the BFS the spec describes would have stopped at 42 pool entries; the
check itself reports `true` as soon as 41 functions are visited. -/
theorem claim_c6_counterexample :
    (g42.bfs o_test 1 false true).api_sequences.length = 43 ∧
    (g42.bfs_spec o_test 1 false true).api_sequences.length = 42 ∧
    ApiGraph.check_all_visited
      ⟨"serde_json", g42.api_functions, List.replicate 41 true ++ [false], [], []⟩
      = true := by
  decide

@[simp] theorem replay_into_funcs (o : Oracle) :
    ∀ (chain : List String) (g : ApiGraph) (s : ApiSequence),
      (replay_into o g chain s).api_functions = g.api_functions := by
  intro chain
  induction chain with
  | nil => intro g s; rfl
  | cons name rest ih =>
    intro g s
    rw [replay_into]
    split
    · split
      · rw [ih]
      · rfl
    · rfl

@[simp] theorem replay_into_deps (o : Oracle) :
    ∀ (chain : List String) (g : ApiGraph) (s : ApiSequence),
      (replay_into o g chain s).api_dependencies = g.api_dependencies := by
  intro chain
  induction chain with
  | nil => intro g s; rfl
  | cons name rest ih =>
    intro g s
    rw [replay_into]
    split
    · split
      · rw [ih]
      · rfl
    · rfl

theorem replay_into_pool (o : Oracle) :
    ∀ (chain : List String) (g : ApiGraph) (s : ApiSequence),
      (replay_into o g chain s).api_sequences =
        g.api_sequences ++
          replay_chain g.api_functions g.api_dependencies o chain s := by
  intro chain
  induction chain with
  | nil => intro g s; simp [replay_into, replay_chain]
  | cons name rest ih =>
    intro g s
    rw [replay_into, replay_chain]
    split
    · rename_i fi hfi
      split
      · rename_i ns hns
        rw [ApiGraph.is_fun_sat] at hns
        rw [ih]
        simp [hns]
      · rename_i hns
        rw [ApiGraph.is_fun_sat] at hns
        simp [hns]
    · rename_i hfi
      simp [replay_chain, hfi]

theorem replay_fold_pool (o : Oracle) :
    ∀ (cs : List (List String)) (g : ApiGraph),
      ((cs.foldl (fun gacc c => replay_into o gacc c ApiSequence.mk_new) g).api_sequences =
        g.api_sequences ++
          cs.bind (fun c =>
            replay_chain g.api_functions g.api_dependencies o c ApiSequence.mk_new)) ∧
      (cs.foldl (fun gacc c => replay_into o gacc c ApiSequence.mk_new) g).api_functions =
        g.api_functions := by
  intro cs
  induction cs with
  | nil => intro g; simp
  | cons c rest ih =>
    intro g
    simp only [List.foldl_cons, List.cons_bind]
    rcases ih (replay_into o g c ApiSequence.mk_new) with ⟨h1, h2⟩
    constructor
    · rw [h1, replay_into_pool, replay_into_funcs, replay_into_deps]
      simp [List.append_assoc]
    · rw [h2, replay_into_funcs]

theorem chain_ok_false_iff (funcs : List ApiFunction) (c : List String) :
    chain_ok funcs c = false ↔
      ∃ name ∈ c, ∀ fn ∈ funcs, fn.full_name ≠ name := by
  unfold chain_ok
  rw [Bool.not_eq_false']
  rw [List.any_eq_true]
  constructor
  · rintro ⟨name, hname, hfind⟩
    refine ⟨name, hname, ?_⟩
    intro fn hfn heq
    rw [Option.isNone_iff_eq_none, List.find?_eq_none] at hfind
    exact (by simpa using hfind fn hfn : ¬ fn.full_name = name) heq
  · rintro ⟨name, hname, habs⟩
    refine ⟨name, hname, ?_⟩
    rw [Option.isNone_iff_eq_none, List.find?_eq_none]
    intro fn hfn
    simpa using habs fn hfn

theorem replay_chain_prefix (funcs : List ApiFunction) (deps : List ApiDependency)
    (o : Oracle) :
    ∀ (pre : List String) (s : ApiSequence) (outs : List ApiSequence)
      (last : ApiSequence) (post : List String) (name : String) (rest : List String),
      replay_all funcs deps o pre s = some (outs, last) →
      post = name :: rest →
      (funcs.enum.find? (fun p => p.snd.full_name == name) = none ∨
        (∃ fi, funcs.enum.find? (fun p => p.snd.full_name == name) = some fi ∧
          is_fun_satisfied funcs deps o ApiType.bareFunction fi.fst last = none)) →
      replay_chain funcs deps o (pre ++ post) s = outs := by
  intro pre
  induction pre with
  | nil =>
    intro s outs last post name rest hall hpost hfail
    rw [replay_all] at hall
    cases hall
    subst hpost
    rw [List.nil_append, replay_chain]
    rcases hfail with hf | ⟨fi, hfi, hsat⟩
    · simp only [hf]
    · simp only [hfi, hsat]
  | cons nm tl ih =>
    intro s outs last post name rest hall hpost hfail
    rw [replay_all] at hall
    split at hall
    · rename_i fi hfi
      split at hall
      · rename_i ns hns
        rcases hra : replay_all funcs deps o tl ns with _ | ⟨outs2, last2⟩
        · rw [hra] at hall
          exact absurd hall (by simp)
        · rw [hra] at hall
          simp only [Option.some.injEq, Prod.mk.injEq] at hall
          obtain ⟨h1, h2⟩ := hall
          subst h1
          subst h2
          rw [List.cons_append, replay_chain]
          simp only [hfi, hns]
          rw [ih ns outs2 last2 post name rest hra hpost hfail]
      · exact absurd hall (by simp)
    · exact absurd hall (by simp)

/-- C7: seed replay drops a chain entirely when any of its names is absent
from the catalog; surviving chains are replayed call-by-call through the
admission algorithm, each admitted prefix sequence is kept in the pool, and
at the first unfound or inadmissible call the remainder of the chain is
discarded. -/
theorem claim_c7 (g : ApiGraph) (o : Oracle) (chains : List (List String)) :
    ((g.real_world_core o chains).api_sequences =
      (chains.filter (fun c => chain_ok g.api_functions c)).bind
        (fun c => replay_chain g.api_functions g.api_dependencies o c
          ApiSequence.mk_new)) ∧
    (∀ c : List String, (∃ name ∈ c, ∀ fn ∈ g.api_functions, fn.full_name ≠ name) →
      chain_ok g.api_functions c = false) ∧
    (∀ (pre : List String) (s : ApiSequence) (outs : List ApiSequence)
       (last : ApiSequence) (name : String) (rest : List String),
      replay_all g.api_functions g.api_dependencies o pre s = some (outs, last) →
      (g.api_functions.enum.find? (fun p => p.snd.full_name == name) = none ∨
        (∃ fi, g.api_functions.enum.find? (fun p => p.snd.full_name == name) = some fi ∧
          is_fun_satisfied g.api_functions g.api_dependencies o ApiType.bareFunction
            fi.fst last = none)) →
      replay_chain g.api_functions g.api_dependencies o (pre ++ name :: rest) s = outs) := by
  refine ⟨?_, ?_, ?_⟩
  · rw [ApiGraph.real_world_core]
    have h := replay_fold_pool o (chains.filter (fun c => chain_ok g.api_functions c))
      (({g with api_sequences := []}).reset_visited)
    rw [h.1]
    simp
  · intro c hc
    exact (chain_ok_false_iff g.api_functions c).mpr hc
  · intro pre s outs last name rest hall hfail
    exact replay_chain_prefix g.api_functions g.api_dependencies o pre s outs last
      (name :: rest) name rest hall rfl hfail

/-- Witness for C7 at a concrete catalog and corpus: the chain with the
unknown name `"z"` contributes nothing, the chain `["a", "b", "a"]` keeps
only its admitted prefix `[a]` (`"b"`'s parameter has no producer), and the
prefix-cut is exactly what `replay_chain` produces. -/
theorem claim_c7_witness :
    (c7_graph.real_world_core o_test [["a", "b", "a"], ["z"], ["a"]]).api_sequences =
      ([["a", "b", "a"], ["z"], ["a"]].filter
        (fun c => chain_ok c7_graph.api_functions c)).bind
        (fun c => replay_chain c7_graph.api_functions c7_graph.api_dependencies
          o_test c ApiSequence.mk_new) ∧
    chain_ok c7_graph.api_functions ["z"] = false ∧
    replay_chain c7_graph.api_functions c7_graph.api_dependencies o_test
      (["a"] ++ "b" :: ["a"]) ApiSequence.mk_new = [c7_s1] := by
  have h := claim_c7 c7_graph o_test [["a", "b", "a"], ["z"], ["a"]]
  refine ⟨h.1, h.2.1 ["z"] ⟨"z", by decide, by decide⟩, ?_⟩
  exact h.2.2 ["a"] ApiSequence.mk_new [c7_s1] c7_s1 "b" ["a"] (by decide)
    (Or.inr ⟨(1, ⟨"b", [2], none, 0, false, none⟩), by decide, by decide⟩)

theorem bfs_pool_extends (g : ApiGraph) (o : Oracle) (max_len : Nat)
    (se fm : Bool) :
    ∃ t, (g.bfs o max_len se fm).api_sequences = g.api_sequences ++ t := by
  rw [ApiGraph.bfs]
  dsimp only
  split
  · exact ⟨[], by simp⟩
  · refine foldl_inv _ (fun gc : ApiGraph => ∃ t, gc.api_sequences = g.api_sequences ++ t)
      (List.range max_len) _ ⟨[ApiSequence.mk_new], by simp⟩ ?_
    intro gc len hlen hPc
    refine foldl_inv _ (fun gc2 : ApiGraph => ∃ t, gc2.api_sequences = g.api_sequences ++ t)
      _ _ hPc ?_
    intro gm sequence hseq hPm
    refine foldl_inv _ (fun gc2 : ApiGraph => ∃ t, gc2.api_sequences = g.api_sequences ++ t)
      _ _ hPm ?_
    intro gi fi hfi hPi
    rw [bfs_step]
    split
    · exact hPi
    · split
      · rename_i ns hns
        rcases hPi with ⟨t, ht⟩
        exact ⟨t ++ [ns], by simp [ht]⟩
      · exact hPi

/-- C10: `_try_deep_bfs` and `random_walk` clear the whole sequence pool
before exploring, so their result is independent of the incoming pool; `bfs`
does not clear it — the incoming pool stays as a PREFIX of the resulting
pool, and its sequences are picked up and further extended (demonstrated on
a one-function catalog whose pre-existing one-call sequence is extended to a
two-call sequence). -/
theorem claim_c10 :
    (∀ (g : ApiGraph) (o : Oracle) (max_len : Nat) (se fm : Bool),
      ∃ t, (g.bfs o max_len se fm).api_sequences = g.api_sequences ++ t) ∧
    (∀ (g : ApiGraph) (o : Oracle) (n : Nat),
      g.try_deep_bfs o n = ApiGraph.try_deep_bfs { g with api_sequences := [] } o n) ∧
    (∀ (g : ApiGraph) (o : Oracle) (rands : List Nat) (ms : Nat) (se : Bool) (md : Nat),
      g.random_walk o rands ms se md =
        ApiGraph.random_walk { g with api_sequences := [] } o rands ms se md) ∧
    ((c10_graph.bfs o_test 2 false false).api_sequences.getD 0 default =
        c10_graph.api_sequences.getD 0 default ∧
      (c10_graph.bfs o_test 2 false false).api_sequences.getD 3 default =
        (c10_graph.api_sequences.getD 0 default).add_fn (ApiCall.mk_new 0)) := by
  refine ⟨?_, ?_, ?_, by decide, by decide⟩
  · exact bfs_pool_extends
  · intro g o n
    rfl
  · intro g o rands ms se md
    rfl
